import Mathlib

/-!
Shallow embedding of the CarbonXO Soroban contracts: the `CarbonCertifier`
certificate registry and the `CarbonToken` fungible-token ledger.

Soroban's persistent/instance key-value storage is modelled as association
lists (one list per logical table, matching the `DataKey` variants of the
source).  `Address` values and certificate ids are modelled as `Nat`;
`u32`/`u128` quantities are modelled as `Nat` and the signed `i128` token
amounts as `Int`.  The workspace builds with checked arithmetic, so every
machine addition either yields its exact value or panics; arithmetic is
therefore modelled exactly throughout, with overflow panics outside the
model.

`require_auth` is a host primitive; each entry point takes the outcome of
its authorization check as an explicit `Bool` argument.  An auth failure
aborts the call before any write, surfaced here as an error result.  A
failure of the nested `env.invoke_contract` call inside `mint_certificate`
likewise panics in the callee and aborts the whole invocation, with every
write of the aborted call rolled back by the host; it is surfaced as an
error result carrying the callee's error, with the entry state returned.

Every entry point returns `(Option Error × State)`: the state component is
the storage as left by the call at the point it returned, so that
"errors leave the state untouched" is a provable property rather than one
baked into the embedding.
-/

abbrev Addr := Nat
abbrev CertId := Nat

/-- Storage-port read: first binding of key `k` in the table. -/
def mapGet {κ α : Type} [DecidableEq κ] (m : List (κ × α)) (k : κ) : Option α :=
  match m with
  | [] => none
  | (k', v) :: t => if k' = k then some v else mapGet t k

/-- Storage-port write: overwrite the binding of `k`, or append a new one. -/
def mapSet {κ α : Type} [DecidableEq κ] (m : List (κ × α)) (k : κ) (v : α) : List (κ × α) :=
  match m with
  | [] => [(k, v)]
  | (k', v') :: t => if k' = k then (k, v) :: t else (k', v') :: mapSet t k v

/-- Storage-port remove: drop every binding of `k`. -/
def mapRemove {κ α : Type} [DecidableEq κ] (m : List (κ × α)) (k : κ) : List (κ × α) :=
  m.filter (fun p => decide (p.1 ≠ k))

/-- `VerificationRecord` from the registry contract (CONADESUCA data). -/
structure VerificationRecord where
  co2e_tons : Nat
  hectares_not_burned : Nat
  farmer_address : Addr
  verifier_address : Addr
  metadata_hash : Nat
deriving DecidableEq

/-- `ContractError` of the `CarbonCertifier` contract. -/
inductive ContractError where
  | AlreadyExists
  | NotFound
  | InvalidInput
  | NotOwner
  | NotAuthorized
deriving DecidableEq

/-- `TokenError` of the `CarbonToken` contract. -/
inductive TokenError where
  | NotInitialized
  | Unauthorized
  | InvalidAmount
  | InsufficientBalance
  | InsufficientAllowance
deriving DecidableEq

/-- `SortBy` criteria of `list_certificates_by_farmer`. -/
inductive SortBy where
  | Co2eTons
  | Hectares
  | CertificateId
deriving DecidableEq

/-- The `CarbonCertifier` storage: one field per `DataKey` table. -/
structure RegState where
  admin : Option Addr
  token_contract_id : Option Addr
  records : List (CertId × VerificationRecord)
  owners : List (CertId × Addr)
  farmer_index : List (Addr × List CertId)
  verifier_index : List (Addr × List CertId)
  total_certificates : Nat
  total_co2e : Nat
deriving DecidableEq

/-- The `CarbonToken` storage: one field per `DataKey` table. -/
structure TokState where
  admin : Option Addr
  balances : List (Addr × Int)
  allowances : List ((Addr × Addr) × Int)
deriving DecidableEq

/-- The registry plus the (single) token-ledger instance it may call into. -/
structure SysState where
  reg : RegState
  tok : TokState
deriving DecidableEq

/-- Error of either contract, for the uniform step function. -/
inductive SysError where
  | reg (e : ContractError)
  | tok (e : TokenError)
deriving DecidableEq

/-- Rust `x as i128` on a `u128` value: reinterpret the low 128 bits. -/
def u128_as_i128 (x : Nat) : Int :=
  if x < 2 ^ 127 then (x : Int) else (x : Int) - 2 ^ 128

namespace CarbonToken

/-- `get_balance`: `storage().persistent().get(Balance(addr)).unwrap_or(0)`. -/
def get_balance (s : TokState) (address : Addr) : Int :=
  (mapGet s.balances address).getD 0

/-- `set_balance`: store a balance. -/
def set_balance (s : TokState) (address : Addr) (balance : Int) : TokState :=
  { s with balances := mapSet s.balances address balance }

/-- `initialize` of the token ledger (source name; `initialize` is reserved here). -/
def init (s : TokState) (admin : Addr) : Option TokenError × TokState :=
  if s.admin.isSome then (some .NotInitialized, s)
  else (none, { s with admin := some admin })

/-- `require_admin`: stored admin must exist and must have authorized. -/
def require_admin (s : TokState) (adminAuth : Bool) : Option TokenError :=
  match s.admin with
  | none => some .NotInitialized
  | some _ => if adminAuth then none else some .Unauthorized

/-- `mint` of the token ledger (admin-gated). -/
def mint (s : TokState) (to_addr : Addr) (amount : Int) (adminAuth : Bool) :
    Option TokenError × TokState :=
  match require_admin s adminAuth with
  | some e => (some e, s)
  | none =>
    if amount ≤ 0 then (some .InvalidAmount, s)
    else
      let current_balance := get_balance s to_addr
      (none, set_balance s to_addr (current_balance + amount))

/-- `transfer` of the token ledger. -/
def transfer (s : TokState) (from_addr to_addr : Addr) (amount : Int) (fromAuth : Bool) :
    Option TokenError × TokState :=
  if fromAuth then
    if amount ≤ 0 then (some .InvalidAmount, s)
    else
      let from_balance := get_balance s from_addr
      if from_balance < amount then (some .InsufficientBalance, s)
      else
        let s1 := set_balance s from_addr (from_balance - amount)
        let to_balance := get_balance s1 to_addr
        (none, set_balance s1 to_addr (to_balance + amount))
  else (some .Unauthorized, s)

/-- `allowance`: stored allowance for `(owner, spender)`, default 0. -/
def allowance (s : TokState) (from_addr spender : Addr) : Int :=
  (mapGet s.allowances (from_addr, spender)).getD 0

/-- `approve`: overwrite the allowance for `(owner, spender)`. -/
def approve (s : TokState) (from_addr spender : Addr) (amount : Int) (fromAuth : Bool) :
    Option TokenError × TokState :=
  if fromAuth then
    if amount < 0 then (some .InvalidAmount, s)
    else (none, { s with allowances := mapSet s.allowances (from_addr, spender) amount })
  else (some .Unauthorized, s)

/-- `transfer_from`: delegated spend, decrementing the allowance. -/
def transfer_from (s : TokState) (spender from_addr to_addr : Addr) (amount : Int)
    (spenderAuth : Bool) : Option TokenError × TokState :=
  if spenderAuth then
    if amount ≤ 0 then (some .InvalidAmount, s)
    else
      let from_balance := get_balance s from_addr
      if from_balance < amount then (some .InsufficientBalance, s)
      else
        let current_allowance := allowance s from_addr spender
        if current_allowance < amount then (some .InsufficientAllowance, s)
        else
          let s1 := set_balance s from_addr (from_balance - amount)
          let s2 := set_balance s1 to_addr (get_balance s1 to_addr + amount)
          let new_allowance := current_allowance - amount
          (none, { s2 with allowances := mapSet s2.allowances (from_addr, spender) new_allowance })
  else (some .Unauthorized, s)

/-- `balance` public query. -/
def balance (s : TokState) (id : Addr) : Int :=
  get_balance s id

end CarbonToken

namespace CarbonCertifier

/-- `initialize` of the registry (source name; `initialize` is reserved here). -/
def init (s : RegState) (admin : Addr) : Option ContractError × RegState :=
  if s.admin.isSome then (some .AlreadyExists, s)
  else (none, { s with admin := some admin })

/-- `set_token_contract_id`: admin-gated configuration of the bridge target. -/
def set_token_contract_id (s : RegState) (admin token_id : Addr) (adminAuth : Bool) :
    Option ContractError × RegState :=
  if adminAuth then
    match s.admin with
    | none => (some .NotAuthorized, s)
    | some stored_admin =>
      if stored_admin ≠ admin then (some .NotAuthorized, s)
      else (none, { s with token_contract_id := some token_id })
  else (some .NotAuthorized, s)

/-- `get_certificate_data` public query. -/
def get_certificate_data (s : RegState) (certificate_id : CertId) :
    Except ContractError VerificationRecord :=
  match mapGet s.records certificate_id with
  | some record => .ok record
  | none => .error .NotFound

/-- `get_certificate_owner` public query (checks the record first). -/
def get_certificate_owner (s : RegState) (certificate_id : CertId) :
    Except ContractError Addr :=
  if (mapGet s.records certificate_id).isNone then .error .NotFound
  else
    match mapGet s.owners certificate_id with
    | some owner => .ok owner
    | none => .error .NotFound

/-- `increment_certificate_count`: counter read with `unwrap_or(0)` then `+ 1`. -/
def increment_certificate_count (s : RegState) : RegState :=
  { s with total_certificates := s.total_certificates + 1 }

/-- `add_co2e_to_total`. -/
def add_co2e_to_total (s : RegState) (co2e_tons : Nat) : RegState :=
  { s with total_co2e := s.total_co2e + co2e_tons }

/-- `decrement_certificate_count`: decrements only when the counter is nonzero. -/
def decrement_certificate_count (s : RegState) : RegState :=
  if s.total_certificates > 0 then
    { s with total_certificates := s.total_certificates - 1 }
  else s

/-- `subtract_co2e_from_total`: subtracts only when it stays nonnegative. -/
def subtract_co2e_from_total (s : RegState) (co2e_tons : Nat) : RegState :=
  if s.total_co2e ≥ co2e_tons then
    { s with total_co2e := s.total_co2e - co2e_tons }
  else s

/-- `add_to_index` on one of the two index tables (`is_farmer` in the source
selects which table; here the caller passes the table and stores the result
back into the corresponding field). -/
def add_to_index (idx : List (Addr × List CertId)) (actor_address : Addr)
    (certificate_id : CertId) : List (Addr × List CertId) :=
  let cert_list := (mapGet idx actor_address).getD []
  mapSet idx actor_address (cert_list ++ [certificate_id])

/-- The source's scan loop in `remove_from_index`: first index holding
`certificate_id`, if any. -/
def find_index (cert_list : List CertId) (certificate_id : CertId) : Option Nat :=
  match cert_list with
  | [] => none
  | x :: t =>
    if x = certificate_id then some 0
    else (find_index t certificate_id).map (· + 1)

/-- The swap-and-pop step of `remove_from_index` on a single cert list:
overwrite the found slot with the last element (unless it is the last),
then `pop_back`. -/
def swap_pop (cert_list : List CertId) (certificate_id : CertId) : List CertId :=
  match find_index cert_list certificate_id with
  | none => cert_list
  | some index =>
    let last_index := cert_list.length - 1
    let cl1 :=
      if index < last_index then cert_list.set index (cert_list.getD last_index 0)
      else cert_list
    cl1.dropLast

/-- `remove_from_index` on one index table: if the actor has a stored list
and the id is found in it, swap-and-pop and store the list back; otherwise
the table is untouched. -/
def remove_from_index (idx : List (Addr × List CertId)) (actor_address : Addr)
    (certificate_id : CertId) : List (Addr × List CertId) :=
  match mapGet idx actor_address with
  | none => idx
  | some cert_list =>
    match find_index cert_list certificate_id with
    | none => idx
    | some _ => mapSet idx actor_address (swap_pop cert_list certificate_id)

/-- `mint_certificate`: validate, store, count, index, set owner, then (when
a token contract is configured) the cross-contract `mint` via
`env.invoke_contract`.  `invoke_contract` panics when the invoked contract
fails, aborting the whole `mint_certificate` invocation, and the host rolls
back every write of the aborted call: the certificate-side writes are
discarded and the entry state is returned with the callee's error. -/
def mint_certificate (s : SysState) (certificate_id : CertId)
    (record : VerificationRecord) (verifierAuth tokAdminAuth : Bool) :
    Option SysError × SysState :=
  if verifierAuth then
    if record.hectares_not_burned = 0 then (some (.reg .InvalidInput), s)
    else if record.co2e_tons = 0 then (some (.reg .InvalidInput), s)
    else if (mapGet s.reg.records certificate_id).isSome then (some (.reg .AlreadyExists), s)
    else
      let r1 := { s.reg with records := mapSet s.reg.records certificate_id record }
      let r2 := increment_certificate_count r1
      let r3 := add_co2e_to_total r2 record.co2e_tons
      let r4 := { r3 with
        farmer_index := add_to_index r3.farmer_index record.farmer_address certificate_id }
      let r5 := { r4 with
        verifier_index := add_to_index r4.verifier_index record.verifier_address certificate_id }
      let r6 := { r5 with owners := mapSet r5.owners certificate_id record.farmer_address }
      match r6.token_contract_id with
      | some _ =>
        let out := CarbonToken.mint s.tok record.farmer_address
          (u128_as_i128 record.co2e_tons) tokAdminAuth
        match out.1 with
        | some e => (some (.tok e), s)
        | none => (none, ⟨r6, out.2⟩)
      | none => (none, ⟨r6, s.tok⟩)
  else (some (.reg .NotAuthorized), s)

/-- `transfer_certificate`: owner-gated overwrite of the owner mapping. -/
def transfer_certificate (s : RegState) (certificate_id : CertId)
    (from_addr to_addr : Addr) (fromAuth : Bool) : Option ContractError × RegState :=
  if fromAuth then
    if (mapGet s.records certificate_id).isNone then (some .NotFound, s)
    else
      match mapGet s.owners certificate_id with
      | none => (some .NotFound, s)
      | some current_owner =>
        if current_owner ≠ from_addr then (some .NotOwner, s)
        else (none, { s with owners := mapSet s.owners certificate_id to_addr })
  else (some .NotAuthorized, s)

/-- `burn_certificate`: owner-gated full removal with index pruning and
counter reversal. -/
def burn_certificate (s : RegState) (certificate_id : CertId) (ownerAuth : Bool) :
    Option ContractError × RegState :=
  match mapGet s.records certificate_id with
  | none => (some .NotFound, s)
  | some record =>
    match mapGet s.owners certificate_id with
    | none => (some .NotFound, s)
    | some _ =>
      if ownerAuth then
        let co2e_tons := record.co2e_tons
        let s1 := { s with owners := mapRemove s.owners certificate_id }
        let s2 := { s1 with records := mapRemove s1.records certificate_id }
        let s3 := { s2 with
          farmer_index := remove_from_index s2.farmer_index record.farmer_address certificate_id }
        let s4 := { s3 with
          verifier_index := remove_from_index s3.verifier_index record.verifier_address certificate_id }
        let s5 := decrement_certificate_count s4
        let s6 := subtract_co2e_from_total s5 co2e_tons
        (none, s6)
      else (some .NotAuthorized, s)

/-- `get_total_certificates` public query. -/
def get_total_certificates (s : RegState) : Nat :=
  s.total_certificates

/-- `get_total_co2e` public query. -/
def get_total_co2e (s : RegState) : Nat :=
  s.total_co2e

end CarbonCertifier

namespace CarbonCertifier

/-- `paginate_cert_list`: shared pagination helper.  The `u32` arithmetic is
modelled exactly over `Nat`, like every other unsigned addition in this
embedding (the workspace builds with checked arithmetic). -/
def paginate_cert_list (all_certs : List CertId) (offset limit : Nat) :
    List CertId × Nat :=
  let total := all_certs.length
  if offset ≥ total then ([], total)
  else
    let e := min (offset + limit) total
    ((List.range' offset (e - offset)).map (fun i => all_certs.getD i 0), total)

/-- The per-record sort key resolved by `sort_certificates` (all three
variants are widened to `u128` in the source). -/
def sort_value (record : VerificationRecord) (id : CertId) : SortBy → Nat
  | .Co2eTons => record.co2e_tons
  | .Hectares => record.hectares_not_burned
  | .CertificateId => id

/-- The `(id, sort_value)` pair list built by `sort_certificates`; ids whose
record is missing from storage are skipped. -/
def sort_pairs (records : List (CertId × VerificationRecord)) (cert_ids : List CertId)
    (sort_by : SortBy) : List (CertId × Nat) :=
  cert_ids.filterMap
    (fun id => (mapGet records id).map (fun record => (id, sort_value record id sort_by)))

/-- The source's swap test: strict comparison, direction set by `is_descending`. -/
def should_swap (is_descending : Bool) (a b : CertId × Nat) : Bool :=
  if is_descending then decide (a.2 < b.2) else decide (b.2 < a.2)

/-- Inner loop of the bubble sort: `n` remaining iterations, current index `j`;
each iteration compares slots `j` and `j + 1` and swaps them when out of order. -/
def bubble_inner (is_descending : Bool) : Nat → Nat → List (CertId × Nat) → List (CertId × Nat)
  | 0, _, pairs => pairs
  | n + 1, j, pairs =>
    let a := pairs.getD j (0, 0)
    let b := pairs.getD (j + 1) (0, 0)
    let pairs' := if should_swap is_descending a b then (pairs.set j b).set (j + 1) a else pairs
    bubble_inner is_descending n (j + 1) pairs'

/-- Outer loop of the bubble sort: pass `i` runs the inner loop over
`j = 0 .. len - i - 2`. -/
def bubble_outer (is_descending : Bool) (len : Nat) :
    Nat → Nat → List (CertId × Nat) → List (CertId × Nat)
  | 0, _, pairs => pairs
  | k + 1, i, pairs =>
    bubble_outer is_descending len k (i + 1) (bubble_inner is_descending (len - i - 1) 0 pairs)

/-- The `no_std` bubble sort of `sort_certificates`. -/
def bubble_sort (is_descending : Bool) (pairs : List (CertId × Nat)) : List (CertId × Nat) :=
  bubble_outer is_descending pairs.length pairs.length 0 pairs

/-- `sort_certificates`: resolve sort keys by re-reading each record, bubble
sort the pairs, and project the ids. -/
def sort_certificates (records : List (CertId × VerificationRecord))
    (cert_ids : List CertId) (sort_by : SortBy) (is_descending : Bool) : List CertId :=
  if cert_ids.length ≤ 1 then cert_ids
  else (bubble_sort is_descending (sort_pairs records cert_ids sort_by)).map Prod.fst

/-- The stored cert list of an actor (`unwrap_or(Vec::new)`). -/
def idx_list (idx : List (Addr × List CertId)) (actor : Addr) : List CertId :=
  (mapGet idx actor).getD []

/-- `list_certificates_by_farmer` (sorted, paginated). -/
def list_certificates_by_farmer (s : RegState) (farmer_address : Addr)
    (offset limit : Nat) (sort_by : SortBy) (is_descending : Bool) :
    List CertId × Nat :=
  let all_certs := idx_list s.farmer_index farmer_address
  let sorted_ids := sort_certificates s.records all_certs sort_by is_descending
  paginate_cert_list sorted_ids offset limit

/-- `list_certificates_by_verifier` (unsorted, paginated). -/
def list_certificates_by_verifier (s : RegState) (verifier_address : Addr)
    (offset limit : Nat) : List CertId × Nat :=
  let all_certs := idx_list s.verifier_index verifier_address
  paginate_cert_list all_certs offset limit

/-- `filter_by_co2e` helper: keep ids whose record's tonnage lies in the
inclusive range. -/
def filter_by_co2e (records : List (CertId × VerificationRecord))
    (cert_ids : List CertId) (min_tons max_tons : Nat) : List CertId :=
  cert_ids.filter (fun id =>
    match mapGet records id with
    | some record => decide (record.co2e_tons ≥ min_tons) && decide (record.co2e_tons ≤ max_tons)
    | none => false)

/-- `filter_by_co2e_range` (filtered, paginated). -/
def filter_by_co2e_range (s : RegState) (farmer_address : Addr)
    (min_tons max_tons offset limit : Nat) : List CertId × Nat :=
  let all_certs := idx_list s.farmer_index farmer_address
  let filtered_ids := filter_by_co2e s.records all_certs min_tons max_tons
  paginate_cert_list filtered_ids offset limit

end CarbonCertifier

/-- One public mutating entry point of either contract, with its arguments
and the outcomes of the `require_auth` checks it performs. -/
inductive SysOp where
  | regInit (admin : Addr)
  | setTokenContractId (admin token_id : Addr) (adminAuth : Bool)
  | mintCertificate (certificate_id : CertId) (record : VerificationRecord)
      (verifierAuth tokAdminAuth : Bool)
  | transferCertificate (certificate_id : CertId) (from_addr to_addr : Addr) (fromAuth : Bool)
  | burnCertificate (certificate_id : CertId) (ownerAuth : Bool)
  | tokInit (admin : Addr)
  | tokMint (to_addr : Addr) (amount : Int) (adminAuth : Bool)
  | tokTransfer (from_addr to_addr : Addr) (amount : Int) (fromAuth : Bool)
  | tokApprove (from_addr spender : Addr) (amount : Int) (fromAuth : Bool)
  | tokTransferFrom (spender from_addr to_addr : Addr) (amount : Int) (spenderAuth : Bool)
deriving DecidableEq

/-- Lift a registry-only call to the full system state. -/
def liftReg (s : SysState) (out : Option ContractError × RegState) :
    Option SysError × SysState :=
  ((out.1).map .reg, ⟨out.2, s.tok⟩)

/-- Lift a token-ledger call to the full system state. -/
def liftTok (s : SysState) (out : Option TokenError × TokState) :
    Option SysError × SysState :=
  ((out.1).map .tok, ⟨s.reg, out.2⟩)

/-- Apply one public mutating entry point. -/
def applySysOp (s : SysState) : SysOp → Option SysError × SysState
  | .regInit admin => liftReg s (CarbonCertifier.init s.reg admin)
  | .setTokenContractId admin token_id adminAuth =>
    liftReg s (CarbonCertifier.set_token_contract_id s.reg admin token_id adminAuth)
  | .mintCertificate certificate_id record verifierAuth tokAdminAuth =>
    CarbonCertifier.mint_certificate s certificate_id record verifierAuth tokAdminAuth
  | .transferCertificate certificate_id from_addr to_addr fromAuth =>
    liftReg s (CarbonCertifier.transfer_certificate s.reg certificate_id from_addr to_addr fromAuth)
  | .burnCertificate certificate_id ownerAuth =>
    liftReg s (CarbonCertifier.burn_certificate s.reg certificate_id ownerAuth)
  | .tokInit admin => liftTok s (CarbonToken.init s.tok admin)
  | .tokMint to_addr amount adminAuth => liftTok s (CarbonToken.mint s.tok to_addr amount adminAuth)
  | .tokTransfer from_addr to_addr amount fromAuth =>
    liftTok s (CarbonToken.transfer s.tok from_addr to_addr amount fromAuth)
  | .tokApprove from_addr spender amount fromAuth =>
    liftTok s (CarbonToken.approve s.tok from_addr spender amount fromAuth)
  | .tokTransferFrom spender from_addr to_addr amount spenderAuth =>
    liftTok s (CarbonToken.transfer_from s.tok spender from_addr to_addr amount spenderAuth)

/-- The empty (pre-`initialize`) registry storage. -/
def regEmpty : RegState := ⟨none, none, [], [], [], [], 0, 0⟩

/-- The empty token-ledger storage. -/
def tokEmpty : TokState := ⟨none, [], []⟩

/-- The initial system state. -/
def sysEmpty : SysState := ⟨regEmpty, tokEmpty⟩

/-- States reachable from the initial state by successful public calls. -/
inductive Reachable : SysState → Prop where
  | init : Reachable sysEmpty
  | step {s : SysState} {op : SysOp} {s' : SysState} :
      Reachable s → applySysOp s op = (none, s') → Reachable s'

/-- Whether an op is a certificate mint or burn. -/
def SysOp.isMintOrBurn : SysOp → Bool
  | .mintCertificate .. => true
  | .burnCertificate .. => true
  | _ => false

/-- States reachable from the initial state by successful `mint_certificate`
and `burn_certificate` calls only. -/
inductive MintBurnReachable : SysState → Prop where
  | init : MintBurnReachable sysEmpty
  | step {s : SysState} {op : SysOp} {s' : SysState} :
      MintBurnReachable s → op.isMintOrBurn = true → applySysOp s op = (none, s') →
      MintBurnReachable s'

/-- Mint/burn sequences are a special case of public-call sequences. -/
theorem MintBurnReachable.toReachable {s : SysState} (h : MintBurnReachable s) :
    Reachable s := by
  induction h with
  | init => exact .init
  | step _ _ happ ih => exact .step ih happ

/-- The sort order enforced by `should_swap`: `a` may stay in front of `b`. -/
def SortRel (is_descending : Bool) (a b : CertId × Nat) : Prop :=
  CarbonCertifier.should_swap is_descending a b = false

/-- The registry storage invariant maintained by every public call:
duplicate-free record keys, the owner/record correspondence, exact counters,
and each live id listed exactly once under its record's farmer and verifier
(and never elsewhere). -/
def RegInv (s : RegState) : Prop :=
  (s.records.map Prod.fst).Nodup ∧
  (∀ id : CertId, (mapGet s.owners id).isSome = (mapGet s.records id).isSome) ∧
  s.total_certificates = s.records.length ∧
  s.total_co2e = (s.records.map (fun p => p.2.co2e_tons)).sum ∧
  (∀ a : Addr, ∀ id : CertId,
    (CarbonCertifier.idx_list s.farmer_index a).count id =
      (if (mapGet s.records id).map VerificationRecord.farmer_address = some a then 1 else 0)) ∧
  (∀ a : Addr, ∀ id : CertId,
    (CarbonCertifier.idx_list s.verifier_index a).count id =
      (if (mapGet s.records id).map VerificationRecord.verifier_address = some a then 1 else 0))

/-- A small token-ledger state used to exercise theorems on concrete inputs:
admin 9, address 1 holds 500 tokens, and spender 2 has an allowance of 300
from address 1. -/
def demoTok : TokState := ⟨some 9, [(1, 500)], [((1, 2), 300)]⟩

/-- A valid verification record: 100 tons CO2e, 10 hectares, farmer 7,
verifier 8. -/
def demoRecord : VerificationRecord := ⟨100, 10, 7, 8, 0⟩

/-- A second valid record for the same farmer and verifier, 40 tons, 4 ha. -/
def demoRecord2 : VerificationRecord := ⟨40, 4, 7, 8, 1⟩



/-- The body of one inner-loop iteration of the bubble sort (compare slots
`j` and `j + 1`, swap when out of order); `bubble_inner` repeats this. -/
def bubble_step (is_descending : Bool) (pairs : List (CertId × Nat)) (j : Nat) :
    List (CertId × Nat) :=
  if CarbonCertifier.should_swap is_descending (pairs.getD j (0, 0)) (pairs.getD (j + 1) (0, 0))
  then (pairs.set j (pairs.getD (j + 1) (0, 0))).set (j + 1) (pairs.getD j (0, 0))
  else pairs

/-- The slice of `l` of length `n` starting at position `j`. -/
def window (l : List (CertId × Nat)) (j n : Nat) : List (CertId × Nat) :=
  (l.drop j).take n



section MapLemmas

variable {κ α : Type} [DecidableEq κ]

theorem mem_keys_of_mapGet_some {m : List (κ × α)} {k : κ} {v : α}
    (h : mapGet m k = some v) : k ∈ m.map Prod.fst := by
  induction m with
  | nil => simp [mapGet] at h
  | cons p t ih =>
    obtain ⟨k', v'⟩ := p
    by_cases hk : k' = k
    · simp [hk]
    · simp only [mapGet, if_neg hk] at h
      simp [ih h]

theorem mapGet_none_iff {m : List (κ × α)} {k : κ} :
    mapGet m k = none ↔ k ∉ m.map Prod.fst := by
  induction m with
  | nil => simp [mapGet]
  | cons p t ih =>
    obtain ⟨k', v'⟩ := p
    by_cases hk : k' = k
    · simp [mapGet, hk]
    · have hne : ¬ k = k' := fun h => hk h.symm
      simp [mapGet, hk, ih, hne]

theorem mapGet_set (m : List (κ × α)) (k x : κ) (v : α) :
    mapGet (mapSet m k v) x = if x = k then some v else mapGet m x := by
  induction m with
  | nil =>
    by_cases h : x = k
    · simp [mapSet, mapGet, h]
    · simp [mapSet, mapGet, h, Ne.symm h]
  | cons p t ih =>
    obtain ⟨k', v'⟩ := p
    by_cases hk : k' = k
    · subst hk
      by_cases hx : x = k'
      · simp [mapSet, mapGet, hx]
      · simp [mapSet, mapGet, hx, Ne.symm hx]
    · by_cases hx : k' = x
      · have hxk : ¬ x = k := fun h => hk (hx.trans h)
        simp [mapSet, mapGet, hk, hx, hxk]
      · simp [mapSet, mapGet, hk, hx, ih]

theorem mapGet_remove (m : List (κ × α)) (k x : κ) :
    mapGet (mapRemove m k) x = if x = k then none else mapGet m x := by
  induction m with
  | nil =>
    by_cases h : x = k <;> simp [mapRemove, mapGet, h]
  | cons p t ih =>
    obtain ⟨k', v'⟩ := p
    by_cases hk : k' = k
    · subst hk
      by_cases hx : x = k'
      · subst hx
        simpa [mapRemove, mapGet] using ih
      · have hne : ¬ k' = x := fun h => hx h.symm
        simp only [mapRemove, List.filter_cons] at *
        simpa [mapGet, hx, hne] using ih
    · by_cases hx : k' = x
      · have hxk : ¬ x = k := fun h => hk (hx.trans h)
        simp [mapRemove, mapGet, hk, hx, hxk]
      · simp only [mapRemove, List.filter_cons] at *
        simpa [mapGet, hk, hx] using ih

theorem mapSet_of_get_none {m : List (κ × α)} {k : κ} (h : mapGet m k = none) (v : α) :
    mapSet m k v = m ++ [(k, v)] := by
  induction m with
  | nil => simp [mapSet]
  | cons p t ih =>
    obtain ⟨k', v'⟩ := p
    by_cases hk : k' = k
    · simp [mapGet, hk] at h
    · simp only [mapGet, if_neg hk] at h
      simp [mapSet, hk, ih h]

theorem mapRemove_of_get_none {m : List (κ × α)} {k : κ} (h : mapGet m k = none) :
    mapRemove m k = m := by
  induction m with
  | nil => simp [mapRemove]
  | cons p t ih =>
    obtain ⟨k', v'⟩ := p
    by_cases hk : k' = k
    · simp [mapGet, hk] at h
    · simp only [mapGet, if_neg hk] at h
      simpa [mapRemove, hk] using ih h

/-- In a table with duplicate-free keys, removing a bound key `k` splits the
table, up to permutation, into the binding of `k` and the rest. -/
theorem perm_cons_mapRemove {m : List (κ × α)} {k : κ} {v : α}
    (hnd : (m.map Prod.fst).Nodup) (h : mapGet m k = some v) :
    m.Perm ((k, v) :: mapRemove m k) := by
  induction m with
  | nil => simp [mapGet] at h
  | cons p t ih =>
    obtain ⟨k', v'⟩ := p
    simp only [List.map_cons, List.nodup_cons] at hnd
    by_cases hk : k' = k
    · subst hk
      have hv : v' = v := by simpa [mapGet] using h
      subst hv
      have hnone : mapGet t k' = none := by
        cases hg : mapGet t k' with
        | none => rfl
        | some w => exact absurd (mem_keys_of_mapGet_some hg) hnd.1
      have h1 : mapRemove ((k', v') :: t) k' = mapRemove t k' := by
        simp [mapRemove, List.filter_cons]
      rw [h1, mapRemove_of_get_none hnone]
    · simp only [mapGet, if_neg hk] at h
      have hperm := (ih hnd.2 h).cons (k', v')
      have hrem : mapRemove ((k', v') :: t) k = (k', v') :: mapRemove t k := by
        simp [mapRemove, hk]
      rw [hrem]
      exact hperm.trans (List.Perm.swap _ _ _)

theorem keys_mapSet_of_get_some {m : List (κ × α)} {k : κ} {w : α}
    (h : mapGet m k = some w) (v : α) :
    (mapSet m k v).map Prod.fst = m.map Prod.fst := by
  induction m with
  | nil => simp [mapGet] at h
  | cons p t ih =>
    obtain ⟨k', v'⟩ := p
    by_cases hk : k' = k
    · subst hk
      simp [mapSet]
    · simp only [mapGet, if_neg hk] at h
      simp [mapSet, hk, ih h]

theorem keysNodup_mapSet {m : List (κ × α)} (k : κ) (v : α)
    (hnd : (m.map Prod.fst).Nodup) : ((mapSet m k v).map Prod.fst).Nodup := by
  cases hg : mapGet m k with
  | some w => rw [keys_mapSet_of_get_some hg] ; exact hnd
  | none =>
    rw [mapSet_of_get_none hg]
    have hk : k ∉ m.map Prod.fst := mapGet_none_iff.mp hg
    simp only [List.map_append, List.map_cons, List.map_nil]
    rw [List.nodup_append]
    refine ⟨hnd, List.nodup_singleton k, ?_⟩
    intro a ha hb
    simp only [List.mem_singleton] at hb
    subst hb
    exact hk ha

theorem keysNodup_mapRemove {m : List (κ × α)} (k : κ)
    (hnd : (m.map Prod.fst).Nodup) : ((mapRemove m k).map Prod.fst).Nodup := by
  have hsub : (mapRemove m k).Sublist m := List.filter_sublist m
  exact (hsub.map Prod.fst).nodup hnd

end MapLemmas

section ErrorFrames

theorem tok_init_frame (s : TokState) (admin : Addr) :
    (CarbonToken.init s admin).1 = none ∨ (CarbonToken.init s admin).2 = s := by
  by_cases h : s.admin.isSome
  · right; simp [CarbonToken.init, h]
  · left; simp [CarbonToken.init, h]

theorem tok_mint_frame (s : TokState) (to_addr : Addr) (amount : Int) (adminAuth : Bool) :
    (CarbonToken.mint s to_addr amount adminAuth).1 = none ∨
    (CarbonToken.mint s to_addr amount adminAuth).2 = s := by
  cases h : CarbonToken.require_admin s adminAuth with
  | some e => right; simp [CarbonToken.mint, h]
  | none =>
    by_cases ha : amount ≤ 0
    · right; simp [CarbonToken.mint, h, ha]
    · left; simp [CarbonToken.mint, h, ha]

theorem tok_transfer_frame (s : TokState) (from_addr to_addr : Addr) (amount : Int)
    (fromAuth : Bool) :
    (CarbonToken.transfer s from_addr to_addr amount fromAuth).1 = none ∨
    (CarbonToken.transfer s from_addr to_addr amount fromAuth).2 = s := by
  cases fromAuth with
  | false => right; simp [CarbonToken.transfer]
  | true =>
    by_cases ha : amount ≤ 0
    · right; simp [CarbonToken.transfer, ha]
    · by_cases hb : CarbonToken.get_balance s from_addr < amount
      · right; simp [CarbonToken.transfer, ha, hb]
      · left; simp [CarbonToken.transfer, ha, hb]

theorem tok_approve_frame (s : TokState) (from_addr spender : Addr) (amount : Int)
    (fromAuth : Bool) :
    (CarbonToken.approve s from_addr spender amount fromAuth).1 = none ∨
    (CarbonToken.approve s from_addr spender amount fromAuth).2 = s := by
  cases fromAuth with
  | false => right; simp [CarbonToken.approve]
  | true =>
    by_cases ha : amount < 0
    · right; simp [CarbonToken.approve, ha]
    · left; simp [CarbonToken.approve, ha]

theorem tok_transfer_from_frame (s : TokState) (spender from_addr to_addr : Addr)
    (amount : Int) (spenderAuth : Bool) :
    (CarbonToken.transfer_from s spender from_addr to_addr amount spenderAuth).1 = none ∨
    (CarbonToken.transfer_from s spender from_addr to_addr amount spenderAuth).2 = s := by
  cases spenderAuth with
  | false => right; simp [CarbonToken.transfer_from]
  | true =>
    by_cases ha : amount ≤ 0
    · right; simp [CarbonToken.transfer_from, ha]
    · by_cases hb : CarbonToken.get_balance s from_addr < amount
      · right; simp [CarbonToken.transfer_from, ha, hb]
      · by_cases hc : CarbonToken.allowance s from_addr spender < amount
        · right; simp [CarbonToken.transfer_from, ha, hb, hc]
        · left; simp [CarbonToken.transfer_from, ha, hb, hc]

theorem reg_init_frame (s : RegState) (admin : Addr) :
    (CarbonCertifier.init s admin).1 = none ∨ (CarbonCertifier.init s admin).2 = s := by
  by_cases h : s.admin.isSome
  · right; simp [CarbonCertifier.init, h]
  · left; simp [CarbonCertifier.init, h]

theorem set_token_contract_id_frame (s : RegState) (admin token_id : Addr) (adminAuth : Bool) :
    (CarbonCertifier.set_token_contract_id s admin token_id adminAuth).1 = none ∨
    (CarbonCertifier.set_token_contract_id s admin token_id adminAuth).2 = s := by
  cases adminAuth with
  | false => right; simp [CarbonCertifier.set_token_contract_id]
  | true =>
    cases h : s.admin with
    | none => right; simp [CarbonCertifier.set_token_contract_id, h]
    | some stored_admin =>
      by_cases ha : stored_admin ≠ admin
      · right; simp [CarbonCertifier.set_token_contract_id, h, ha]
      · left; simp [CarbonCertifier.set_token_contract_id, h, ha]

theorem mint_certificate_frame (s : SysState) (certificate_id : CertId)
    (record : VerificationRecord) (verifierAuth tokAdminAuth : Bool) :
    (CarbonCertifier.mint_certificate s certificate_id record verifierAuth tokAdminAuth).1 = none ∨
    (CarbonCertifier.mint_certificate s certificate_id record verifierAuth tokAdminAuth).2 = s := by
  cases verifierAuth with
  | false => right; simp [CarbonCertifier.mint_certificate]
  | true =>
    by_cases h1 : record.hectares_not_burned = 0
    · right; simp [CarbonCertifier.mint_certificate, h1]
    · by_cases h2 : record.co2e_tons = 0
      · right; simp [CarbonCertifier.mint_certificate, h1, h2]
      · by_cases h3 : (mapGet s.reg.records certificate_id).isSome
        · right; simp [CarbonCertifier.mint_certificate, h1, h2, h3]
        · cases htc : s.reg.token_contract_id with
          | none =>
            left
            simp [CarbonCertifier.mint_certificate, h1, h2, h3, htc,
              CarbonCertifier.increment_certificate_count, CarbonCertifier.add_co2e_to_total]
          | some t =>
            cases hout : (CarbonToken.mint s.tok record.farmer_address
                (u128_as_i128 record.co2e_tons) tokAdminAuth).1 with
            | none =>
              left
              simp [CarbonCertifier.mint_certificate, h1, h2, h3, htc, hout,
                CarbonCertifier.increment_certificate_count, CarbonCertifier.add_co2e_to_total]
            | some e =>
              right
              simp [CarbonCertifier.mint_certificate, h1, h2, h3, htc, hout,
                CarbonCertifier.increment_certificate_count, CarbonCertifier.add_co2e_to_total]

theorem transfer_certificate_frame (s : RegState) (certificate_id : CertId)
    (from_addr to_addr : Addr) (fromAuth : Bool) :
    (CarbonCertifier.transfer_certificate s certificate_id from_addr to_addr fromAuth).1 = none ∨
    (CarbonCertifier.transfer_certificate s certificate_id from_addr to_addr fromAuth).2 = s := by
  cases fromAuth with
  | false => right; simp [CarbonCertifier.transfer_certificate]
  | true =>
    by_cases h1 : (mapGet s.records certificate_id).isNone
    · right; simp [CarbonCertifier.transfer_certificate, h1]
    · cases h2 : mapGet s.owners certificate_id with
      | none => right; simp [CarbonCertifier.transfer_certificate, h1, h2]
      | some current_owner =>
        by_cases h3 : current_owner ≠ from_addr
        · right; simp [CarbonCertifier.transfer_certificate, h1, h2, h3]
        · left; simp [CarbonCertifier.transfer_certificate, h1, h2, h3]

theorem burn_certificate_frame (s : RegState) (certificate_id : CertId) (ownerAuth : Bool) :
    (CarbonCertifier.burn_certificate s certificate_id ownerAuth).1 = none ∨
    (CarbonCertifier.burn_certificate s certificate_id ownerAuth).2 = s := by
  cases h1 : mapGet s.records certificate_id with
  | none => right; simp [CarbonCertifier.burn_certificate, h1]
  | some record =>
    cases h2 : mapGet s.owners certificate_id with
    | none => right; simp [CarbonCertifier.burn_certificate, h1, h2]
    | some owner =>
      cases ownerAuth with
      | false => right; simp [CarbonCertifier.burn_certificate, h1, h2]
      | true => left; simp [CarbonCertifier.burn_certificate, h1, h2]

theorem liftReg_err {s : SysState} {out : Option ContractError × RegState} {e : SysError}
    {s' : SysState} (hframe : out.1 = none ∨ out.2 = s.reg)
    (h : liftReg s out = (some e, s')) : s' = s := by
  have h1 := congrArg Prod.fst h
  have h2 := congrArg Prod.snd h
  simp only [liftReg] at h1 h2
  rcases hframe with hf | hf
  · rw [hf] at h1
    simp at h1
  · rw [← h2, hf]

theorem liftTok_err {s : SysState} {out : Option TokenError × TokState} {e : SysError}
    {s' : SysState} (hframe : out.1 = none ∨ out.2 = s.tok)
    (h : liftTok s out = (some e, s')) : s' = s := by
  have h1 := congrArg Prod.fst h
  have h2 := congrArg Prod.snd h
  simp only [liftTok] at h1 h2
  rcases hframe with hf | hf
  · rw [hf] at h1
    simp at h1
  · rw [← h2, hf]

end ErrorFrames

/-- C5: every public entry point of the registry and the token ledger that
returns an error leaves all stored state exactly as it was before the call
(the nested cross-ledger mint inside `mint_certificate` is not an entry
point here and its failure does not make the outer call error). -/
theorem C5_error_returns_leave_state_unchanged (s : SysState) (op : SysOp) (e : SysError)
    (s' : SysState) (h : applySysOp s op = (some e, s')) : s' = s := by
  cases op with
  | regInit admin => exact liftReg_err (reg_init_frame s.reg admin) h
  | setTokenContractId admin token_id adminAuth =>
    exact liftReg_err (set_token_contract_id_frame s.reg admin token_id adminAuth) h
  | mintCertificate certificate_id record verifierAuth tokAdminAuth =>
    have hframe := mint_certificate_frame s certificate_id record verifierAuth tokAdminAuth
    have h1 := congrArg Prod.fst h
    have h2 := congrArg Prod.snd h
    simp only [applySysOp] at h1 h2
    rcases hframe with hf | hf
    · rw [hf] at h1
      simp at h1
    · rw [← h2, hf]
  | transferCertificate certificate_id from_addr to_addr fromAuth =>
    exact liftReg_err (transfer_certificate_frame s.reg certificate_id from_addr to_addr fromAuth) h
  | burnCertificate certificate_id ownerAuth =>
    exact liftReg_err (burn_certificate_frame s.reg certificate_id ownerAuth) h
  | tokInit admin => exact liftTok_err (tok_init_frame s.tok admin) h
  | tokMint to_addr amount adminAuth =>
    exact liftTok_err (tok_mint_frame s.tok to_addr amount adminAuth) h
  | tokTransfer from_addr to_addr amount fromAuth =>
    exact liftTok_err (tok_transfer_frame s.tok from_addr to_addr amount fromAuth) h
  | tokApprove from_addr spender amount fromAuth =>
    exact liftTok_err (tok_approve_frame s.tok from_addr spender amount fromAuth) h
  | tokTransferFrom spender from_addr to_addr amount spenderAuth =>
    exact liftTok_err (tok_transfer_from_frame s.tok spender from_addr to_addr amount spenderAuth) h

/-- C5 witness: a duplicate-id mint fails with `AlreadyExists` and leaves the
state unchanged. -/
theorem C5_error_returns_leave_state_unchanged_witness :
    (applySysOp ⟨⟨some 9, none, [(1, demoRecord)], [(1, 7)], [(7, [1])], [(8, [1])], 1, 100⟩, tokEmpty⟩
      (.mintCertificate 1 demoRecord true true)).2 =
    ⟨⟨some 9, none, [(1, demoRecord)], [(1, 7)], [(7, [1])], [(8, [1])], 1, 100⟩, tokEmpty⟩ :=
  C5_error_returns_leave_state_unchanged
    ⟨⟨some 9, none, [(1, demoRecord)], [(1, 7)], [(7, [1])], [(8, [1])], 1, 100⟩, tokEmpty⟩
    (.mintCertificate 1 demoRecord true true) (.reg .AlreadyExists)
    ((applySysOp ⟨⟨some 9, none, [(1, demoRecord)], [(1, 7)], [(7, [1])], [(8, [1])], 1, 100⟩, tokEmpty⟩
      (.mintCertificate 1 demoRecord true true)).2)
    (by decide)

/-- The state produced by a successful `transfer_from`. -/
theorem transfer_from_ok (s : TokState) (spender from_addr to_addr : Addr) (amount : Int)
    (h : ¬ amount ≤ 0) (h2 : ¬ CarbonToken.get_balance s from_addr < amount)
    (h3 : ¬ CarbonToken.allowance s from_addr spender < amount) :
    CarbonToken.transfer_from s spender from_addr to_addr amount true =
      (none,
        { admin := s.admin,
          balances :=
            mapSet (mapSet s.balances from_addr (CarbonToken.get_balance s from_addr - amount))
              to_addr
              ((mapGet (mapSet s.balances from_addr (CarbonToken.get_balance s from_addr - amount))
                  to_addr).getD 0 + amount),
          allowances :=
            mapSet s.allowances (from_addr, spender)
              (CarbonToken.allowance s from_addr spender - amount) }) := by
  have h2' : ¬ (mapGet s.balances from_addr).getD 0 < amount := h2
  have h3' : ¬ (mapGet s.allowances (from_addr, spender)).getD 0 < amount := h3
  simp [CarbonToken.transfer_from, h, h2', h3', CarbonToken.set_balance,
    CarbonToken.get_balance, CarbonToken.allowance]

/-- C7: `transfer_from` with an authorized spender fails `InvalidAmount` on
nonpositive amounts, `InsufficientBalance` when the owner's balance is too
small, `InsufficientAllowance` when the allowance is too small; on success
it debits `from`, credits `to`, and decreases `allowance(from, spender)` by
exactly the amount, which therefore never goes negative. -/
theorem C7_transfer_from_spec (s : TokState) (spender from_addr to_addr : Addr)
    (amount : Int) :
    (amount ≤ 0 →
      CarbonToken.transfer_from s spender from_addr to_addr amount true =
        (some .InvalidAmount, s)) ∧
    (0 < amount → CarbonToken.get_balance s from_addr < amount →
      CarbonToken.transfer_from s spender from_addr to_addr amount true =
        (some .InsufficientBalance, s)) ∧
    (0 < amount → amount ≤ CarbonToken.get_balance s from_addr →
      CarbonToken.allowance s from_addr spender < amount →
      CarbonToken.transfer_from s spender from_addr to_addr amount true =
        (some .InsufficientAllowance, s)) ∧
    (0 < amount → amount ≤ CarbonToken.get_balance s from_addr →
      amount ≤ CarbonToken.allowance s from_addr spender →
      (CarbonToken.transfer_from s spender from_addr to_addr amount true).1 = none ∧
      (∀ a : Addr,
        CarbonToken.get_balance
            (CarbonToken.transfer_from s spender from_addr to_addr amount true).2 a =
          CarbonToken.get_balance s a + (if a = to_addr then amount else 0) -
            (if a = from_addr then amount else 0)) ∧
      CarbonToken.allowance (CarbonToken.transfer_from s spender from_addr to_addr amount true).2
          from_addr spender =
        CarbonToken.allowance s from_addr spender - amount ∧
      0 ≤ CarbonToken.allowance
        (CarbonToken.transfer_from s spender from_addr to_addr amount true).2
          from_addr spender) := by
  refine ⟨?_, ?_, ?_, ?_⟩
  · intro h
    simp [CarbonToken.transfer_from, h]
  · intro h1 h2
    have h : ¬ amount ≤ 0 := by omega
    have h2' : (mapGet s.balances from_addr).getD 0 < amount := h2
    simp [CarbonToken.transfer_from, h, h2, h2']
  · intro h1 h2 h3
    have h : ¬ amount ≤ 0 := by omega
    have hb : ¬ CarbonToken.get_balance s from_addr < amount := by omega
    have h2' : ¬ (mapGet s.balances from_addr).getD 0 < amount := hb
    have h3' : (mapGet s.allowances (from_addr, spender)).getD 0 < amount := h3
    simp [CarbonToken.transfer_from, h, hb, h2', h3, h3']
  · intro h1 h2 h3
    have h : ¬ amount ≤ 0 := by omega
    have h2' : ¬ CarbonToken.get_balance s from_addr < amount := by omega
    have h3' : ¬ CarbonToken.allowance s from_addr spender < amount := by omega
    rw [transfer_from_ok s spender from_addr to_addr amount h h2' h3']
    refine ⟨rfl, ?_, ?_, ?_⟩
    · intro a
      by_cases hat : a = to_addr
      · subst hat
        by_cases haf : a = from_addr
        · subst haf
          simp [CarbonToken.get_balance, mapGet_set]
        · simp [CarbonToken.get_balance, mapGet_set, haf]
      · by_cases haf : a = from_addr
        · subst haf
          simp [CarbonToken.get_balance, mapGet_set, hat]
        · simp [CarbonToken.get_balance, mapGet_set, hat, haf]
    · simp [CarbonToken.allowance, mapGet_set]
    · have h3g : amount ≤ (mapGet s.allowances (from_addr, spender)).getD 0 := h3
      simp [CarbonToken.allowance, mapGet_set]
      omega

/-- C7 witness: with a balance of 500 and an allowance of 300, spending 200
succeeds, leaves an allowance of 100, and credits the recipient by 200. -/
theorem C7_transfer_from_spec_witness :
    (CarbonToken.transfer_from demoTok 2 1 3 200 true).1 = none ∧
    CarbonToken.allowance (CarbonToken.transfer_from demoTok 2 1 3 200 true).2 1 2 =
      CarbonToken.allowance demoTok 1 2 - 200 ∧
    CarbonToken.get_balance (CarbonToken.transfer_from demoTok 2 1 3 200 true).2 3 =
      CarbonToken.get_balance demoTok 3 + 200 - 0 := by
  have h := (C7_transfer_from_spec demoTok 2 1 3 200).2.2.2 (by decide) (by decide) (by decide)
  refine ⟨h.1, h.2.2.1, ?_⟩
  have hb := h.2.1 3
  simpa using hb

/-- C10: a self-transfer of an amount within the balance succeeds and leaves
every balance unchanged (the debit is written before the credit is read). -/
theorem C10_self_transfer_preserves_balances (s : TokState) (a : Addr) (m : Int)
    (h1 : 0 < m) (h2 : m ≤ CarbonToken.get_balance s a) :
    (CarbonToken.transfer s a a m true).1 = none ∧
    ∀ x : Addr, CarbonToken.get_balance (CarbonToken.transfer s a a m true).2 x =
      CarbonToken.get_balance s x := by
  have h : ¬ m ≤ 0 := by omega
  have h2' : ¬ CarbonToken.get_balance s a < m := by omega
  have h2'' : ¬ (mapGet s.balances a).getD 0 < m := h2'
  constructor
  · simp [CarbonToken.transfer, h, h2', h2'']
  · intro x
    by_cases hx : x = a
    · subst hx
      simp [CarbonToken.transfer, h, h2', h2'', CarbonToken.get_balance,
        CarbonToken.set_balance, mapGet_set]
    · simp [CarbonToken.transfer, h, h2', h2'', CarbonToken.get_balance,
        CarbonToken.set_balance, mapGet_set, hx]

/-- C10 witness: a self-transfer of 200 out of 500 leaves the balance at 500. -/
theorem C10_self_transfer_preserves_balances_witness :
    (CarbonToken.transfer demoTok 1 1 200 true).1 = none ∧
    CarbonToken.get_balance (CarbonToken.transfer demoTok 1 1 200 true).2 1 =
      CarbonToken.get_balance demoTok 1 := by
  have h := C10_self_transfer_preserves_balances demoTok 1 200 (by decide) (by decide)
  exact ⟨h.1, h.2 1⟩

section SwapPopLemmas

open CarbonCertifier

theorem find_index_of_not_mem {l : List CertId} {cid : CertId} (h : cid ∉ l) :
    find_index l cid = none := by
  induction l with
  | nil => rfl
  | cons a t ih =>
    simp only [List.mem_cons] at h
    push_neg at h
    have ha : ¬ a = cid := fun hh => h.1 hh.symm
    simp [find_index, ha, ih h.2]

theorem find_index_of_mem {l : List CertId} {cid : CertId} (h : cid ∈ l) :
    ∃ j, find_index l cid = some j ∧ j < l.length := by
  induction l with
  | nil => simp at h
  | cons a t ih =>
    by_cases ha : a = cid
    · exact ⟨0, by simp [find_index, ha], by simp⟩
    · have hmem : cid ∈ t := by
        rcases List.mem_cons.mp h with hh | hh
        · exact absurd hh.symm ha
        · exact hh
      obtain ⟨j, hj, hjlt⟩ := ih hmem
      exact ⟨j + 1, by simp [find_index, ha, hj], by simpa using Nat.succ_lt_succ hjlt⟩

theorem swap_pop_of_not_mem {l : List CertId} {cid : CertId} (h : cid ∉ l) :
    swap_pop l cid = l := by
  simp [swap_pop, find_index_of_not_mem h]

theorem getD_last_eq_getLast {l : List CertId} (h : l ≠ []) :
    l.getD (l.length - 1) 0 = l.getLast h := by
  have hlt : l.length - 1 < l.length := by
    have := List.length_pos.mpr h
    omega
  rw [List.getD_eq_getElem l 0 hlt, List.getLast_eq_getElem]

theorem swap_pop_cons {a cid : CertId} {t : List CertId} (ha : ¬ a = cid) (hmem : cid ∈ t) :
    swap_pop (a :: t) cid = a :: swap_pop t cid := by
  obtain ⟨j, hj, hjlt⟩ := find_index_of_mem hmem
  have hfc : find_index (a :: t) cid = some (j + 1) := by simp [find_index, ha, hj]
  have ht : t ≠ [] := List.ne_nil_of_mem hmem
  have hlen : 1 ≤ t.length := List.length_pos.mpr ht
  have hget : (a :: t).getD t.length 0 = t.getD (t.length - 1) 0 := by
    obtain ⟨n, hn⟩ : ∃ n, t.length = n + 1 := ⟨t.length - 1, by omega⟩
    rw [hn]
    simp [List.getD_cons_succ]
  simp only [swap_pop, hfc, hj, List.length_cons, Nat.add_sub_cancel]
  by_cases hb : j < t.length - 1
  · have hb2 : j + 1 < t.length := by omega
    rw [if_pos hb2, if_pos hb, hget, List.set_cons_succ]
    have hne : t.set j (t.getD (t.length - 1) 0) ≠ [] := by
      intro hh
      have h0 : (t.set j (t.getD (t.length - 1) 0)).length = 0 := by rw [hh] ; rfl
      rw [List.length_set] at h0
      omega
    rw [List.dropLast_cons_of_ne_nil hne]
  · have hb2 : ¬ j + 1 < t.length := by omega
    rw [if_neg hb2, if_neg hb, List.dropLast_cons_of_ne_nil ht]

theorem swap_pop_perm_erase {l : List CertId} {cid : CertId} (h : cid ∈ l) :
    (swap_pop l cid).Perm (l.erase cid) := by
  induction l with
  | nil => simp at h
  | cons a t ih =>
    by_cases ha : a = cid
    · subst ha
      rw [List.erase_cons_head]
      cases t with
      | nil => simp [swap_pop, find_index]
      | cons b t' =>
        have hfc : find_index (a :: b :: t') a = some 0 := by simp [find_index]
        have ht : (b :: t') ≠ [] := by simp
        simp only [swap_pop, hfc, List.length_cons, Nat.add_sub_cancel]
        rw [if_pos (by simp)]
        have hget : (a :: b :: t').getD (t'.length + 1) 0 = (b :: t').getLast ht := by
          rw [List.getD_cons_succ]
        
          have : t'.length = (b :: t').length - 1 := by simp
          rw [this, getD_last_eq_getLast ht]
        rw [hget, List.set_cons_zero]
        rw [List.dropLast_cons_of_ne_nil ht]
        calc ((b :: t').getLast ht :: (b :: t').dropLast).Perm
              ((b :: t').dropLast ++ [(b :: t').getLast ht]) :=
              (List.perm_append_singleton _ _).symm
          _ = (b :: t') := List.dropLast_append_getLast ht
    · have hmem : cid ∈ t := by
        rcases List.mem_cons.mp h with hh | hh
        · exact absurd hh.symm ha
        · exact hh
      rw [swap_pop_cons ha hmem]
      have herase : (a :: t).erase cid = a :: t.erase cid := by
        rw [List.erase_cons_tail]
        simp [ha]
      rw [herase]
      exact (ih hmem).cons a

theorem swap_pop_count_self {l : List CertId} {cid : CertId} (h : l.count cid = 1) :
    (swap_pop l cid).count cid = 0 := by
  have hmem : cid ∈ l := List.count_pos_iff.mp (by omega)
  rw [(swap_pop_perm_erase hmem).count_eq]
  rw [List.count_erase_self]
  omega

theorem swap_pop_count_other {l : List CertId} {cid x : CertId} (hx : x ≠ cid) :
    (swap_pop l cid).count x = l.count x := by
  by_cases hmem : cid ∈ l
  · rw [(swap_pop_perm_erase hmem).count_eq]
    exact List.count_erase_of_ne hx l
  · rw [swap_pop_of_not_mem hmem]

theorem idx_list_remove_self (idx : List (Addr × List CertId)) (actor : Addr) (cid : CertId) :
    idx_list (remove_from_index idx actor cid) actor = swap_pop (idx_list idx actor) cid := by
  cases hg : mapGet idx actor with
  | none =>
    simp [remove_from_index, idx_list, hg, swap_pop, find_index]
  | some cl =>
    cases hf : find_index cl cid with
    | none => simp [remove_from_index, idx_list, hg, hf, swap_pop]
    | some i =>
      simp [remove_from_index, idx_list, hg, hf, mapGet_set]

theorem idx_list_remove_other (idx : List (Addr × List CertId)) (actor a : Addr) (cid : CertId)
    (ha : a ≠ actor) :
    idx_list (remove_from_index idx actor cid) a = idx_list idx a := by
  cases hg : mapGet idx actor with
  | none => simp [remove_from_index, hg]
  | some cl =>
    cases hf : find_index cl cid with
    | none => simp [remove_from_index, hg, hf]
    | some i => simp [remove_from_index, idx_list, hg, hf, mapGet_set, ha]

theorem idx_list_add (idx : List (Addr × List CertId)) (actor a : Addr) (cid : CertId) :
    idx_list (add_to_index idx actor cid) a =
      if a = actor then idx_list idx a ++ [cid] else idx_list idx a := by
  by_cases ha : a = actor
  · subst ha
    simp [add_to_index, idx_list, mapGet_set]
  · simp [add_to_index, idx_list, mapGet_set, ha]

end SwapPopLemmas

/-- C9: on the cert list of `actor`, removing an id that occurs exactly once
drops that id entirely and preserves the count of every other id; removing
an id that is absent leaves the whole index table unchanged. -/
theorem C9_swap_and_pop_spec (idx : List (Addr × List CertId)) (actor : Addr) (cid : CertId) :
    ((CarbonCertifier.idx_list idx actor).count cid = 1 →
      (CarbonCertifier.idx_list (CarbonCertifier.remove_from_index idx actor cid) actor).count cid
          = 0 ∧
      (∀ x : CertId, x ≠ cid →
        (CarbonCertifier.idx_list (CarbonCertifier.remove_from_index idx actor cid) actor).count x
          = (CarbonCertifier.idx_list idx actor).count x)) ∧
    (cid ∉ CarbonCertifier.idx_list idx actor →
      CarbonCertifier.remove_from_index idx actor cid = idx) := by
  constructor
  · intro h1
    rw [idx_list_remove_self]
    exact ⟨swap_pop_count_self h1, fun x hx => swap_pop_count_other hx⟩
  · intro h2
    cases hg : mapGet idx actor with
    | none => simp [CarbonCertifier.remove_from_index, hg]
    | some cl =>
      have : cid ∉ cl := by
        simpa [CarbonCertifier.idx_list, hg] using h2
      simp [CarbonCertifier.remove_from_index, hg, find_index_of_not_mem this]

/-- C9 witness: in the list `[5, 3, 9]` of actor 7, removing 3 moves 9 into
its slot and keeps 5 and 9 exactly once; removing the absent 4 is a no-op. -/
theorem C9_swap_and_pop_spec_witness :
    ((CarbonCertifier.idx_list [(7, [5, 3, 9])] 7).count 3 = 1 ∧
      (CarbonCertifier.idx_list (CarbonCertifier.remove_from_index [(7, [5, 3, 9])] 7 3) 7).count 3
        = 0 ∧
      (CarbonCertifier.idx_list (CarbonCertifier.remove_from_index [(7, [5, 3, 9])] 7 3) 7).count 9
        = (CarbonCertifier.idx_list [(7, [5, 3, 9])] 7).count 9) ∧
    CarbonCertifier.remove_from_index [(7, [5, 3, 9])] 7 4 = [(7, [5, 3, 9])] := by
  have h := C9_swap_and_pop_spec [(7, [5, 3, 9])] 7 3
  have h1 := h.1 (by decide)
  have h4 := (C9_swap_and_pop_spec [(7, [5, 3, 9])] 7 4).2 (by decide)
  exact ⟨⟨by decide, h1.1, h1.2 9 (by decide)⟩, h4⟩

theorem range'_map_getD (l : List CertId) :
    ∀ (n s : Nat), s + n ≤ l.length →
      (List.range' s n).map (fun i => l.getD i 0) = (l.drop s).take n := by
  intro n
  induction n with
  | zero => intro s _ ; simp
  | succ n ih =>
    intro s hs
    have hslt : s < l.length := by omega
    rw [List.range'_succ s n 1, List.map_cons, List.drop_eq_getElem_cons hslt]
    rw [List.take_succ_cons]
    rw [List.getD_eq_getElem l 0 hslt]
    rw [ih (s + 1) (by omega)]

/-- C6: the shared pagination helper returns `total = N` regardless of
`offset`/`limit`, and the page is exactly the slice of the full list from
`offset` to `min (offset + limit) N`, of length `min limit (N - offset)`
(the empty page when `offset ≥ N`). -/
theorem C6_pagination_spec (all_certs : List CertId) (offset limit : Nat) :
    (CarbonCertifier.paginate_cert_list all_certs offset limit).2 = all_certs.length ∧
    (CarbonCertifier.paginate_cert_list all_certs offset limit).1 =
      (all_certs.drop offset).take limit ∧
    (CarbonCertifier.paginate_cert_list all_certs offset limit).1.length =
      min limit (all_certs.length - offset) := by
  by_cases ho : offset ≥ all_certs.length
  · have hd : all_certs.drop offset = [] := List.drop_eq_nil_of_le (by omega)
    refine ⟨by simp [CarbonCertifier.paginate_cert_list, ho], ?_, ?_⟩
    · simp [CarbonCertifier.paginate_cert_list, ho, hd]
    · simp only [CarbonCertifier.paginate_cert_list, if_pos ho, List.length_nil]
      omega
  · have holt : offset < all_certs.length := by omega
    have hbound : offset + (min (offset + limit) all_certs.length - offset) ≤
        all_certs.length := by omega
    have hmain : (CarbonCertifier.paginate_cert_list all_certs offset limit).1 =
        (all_certs.drop offset).take limit := by
      simp only [CarbonCertifier.paginate_cert_list, if_neg ho]
      rw [range'_map_getD all_certs _ offset hbound]
      rcases le_or_lt (offset + limit) all_certs.length with hl | hl
      · have h1 : min (offset + limit) all_certs.length = offset + limit := by omega
        rw [h1]
        have h2 : offset + limit - offset = limit := by omega
        rw [h2]
      · have h1 : min (offset + limit) all_certs.length = all_certs.length := by omega
        rw [h1]
        rw [List.take_of_length_le (by rw [List.length_drop]),
          List.take_of_length_le (by rw [List.length_drop] ; omega)]
    refine ⟨by simp [CarbonCertifier.paginate_cert_list, ho], hmain, ?_⟩
    rw [hmain, List.length_take, List.length_drop]

/-- C6 witness: the slice `[10, 20, 30, 40].drop 1 |>.take 2` with total 4. -/
theorem C6_pagination_spec_witness :
    (CarbonCertifier.paginate_cert_list [10, 20, 30, 40] 1 2).2 = 4 ∧
    (CarbonCertifier.paginate_cert_list [10, 20, 30, 40] 1 2).1 = [20, 30] := by
  have h := C6_pagination_spec [10, 20, 30, 40] 1 2
  exact ⟨h.1, by rw [h.2.1] ; rfl⟩

section OkShapes

open CarbonCertifier

theorem decrement_fields (s : RegState) :
    (decrement_certificate_count s).records = s.records ∧
    (decrement_certificate_count s).owners = s.owners ∧
    (decrement_certificate_count s).farmer_index = s.farmer_index ∧
    (decrement_certificate_count s).verifier_index = s.verifier_index ∧
    (decrement_certificate_count s).total_co2e = s.total_co2e := by
  unfold decrement_certificate_count
  split <;> exact ⟨rfl, rfl, rfl, rfl, rfl⟩

theorem subtract_fields (s : RegState) (c : Nat) :
    (subtract_co2e_from_total s c).records = s.records ∧
    (subtract_co2e_from_total s c).owners = s.owners ∧
    (subtract_co2e_from_total s c).farmer_index = s.farmer_index ∧
    (subtract_co2e_from_total s c).verifier_index = s.verifier_index ∧
    (subtract_co2e_from_total s c).total_certificates = s.total_certificates := by
  unfold subtract_co2e_from_total
  split <;> exact ⟨rfl, rfl, rfl, rfl, rfl⟩

theorem mint_certificate_ok_shape {s : SysState} {cid : CertId} {r : VerificationRecord}
    {va ta : Bool} {s' : SysState}
    (h : mint_certificate s cid r va ta = (none, s')) :
    va = true ∧ r.hectares_not_burned ≠ 0 ∧ r.co2e_tons ≠ 0 ∧
    mapGet s.reg.records cid = none ∧
    s'.reg = { s.reg with
      records := mapSet s.reg.records cid r,
      owners := mapSet s.reg.owners cid r.farmer_address,
      farmer_index := add_to_index s.reg.farmer_index r.farmer_address cid,
      verifier_index := add_to_index s.reg.verifier_index r.verifier_address cid,
      total_certificates := s.reg.total_certificates + 1,
      total_co2e := s.reg.total_co2e + r.co2e_tons } := by
  cases va with
  | false => exact absurd (congrArg Prod.fst h) (by simp [mint_certificate])
  | true =>
    by_cases h1 : r.hectares_not_burned = 0
    · exact absurd (congrArg Prod.fst h) (by simp [mint_certificate, h1])
    · by_cases h2 : r.co2e_tons = 0
      · exact absurd (congrArg Prod.fst h) (by simp [mint_certificate, h1, h2])
      · by_cases h3 : (mapGet s.reg.records cid).isSome
        · exact absurd (congrArg Prod.fst h) (by simp [mint_certificate, h1, h2, h3])
        · have h3' : mapGet s.reg.records cid = none := by
            cases hg : mapGet s.reg.records cid with
            | none => rfl
            | some w => rw [hg] at h3 ; simp at h3
          refine ⟨rfl, h1, h2, h3', ?_⟩
          have hs := congrArg Prod.snd h
          cases htc : s.reg.token_contract_id with
          | none =>
            simp only [mint_certificate, h1, h2, h3', htc, increment_certificate_count,
              add_co2e_to_total, if_neg, if_true, if_false, Option.isSome_none,
              Bool.false_eq_true, ite_false, ite_true] at hs
            rw [← hs]
            simp [htc]
          | some t =>
            cases hout : (CarbonToken.mint s.tok r.farmer_address
                (u128_as_i128 r.co2e_tons) ta).1 with
            | some e =>
              have hfst := congrArg Prod.fst h
              simp [mint_certificate, h1, h2, h3', htc, hout, increment_certificate_count,
                add_co2e_to_total] at hfst
            | none =>
              simp only [mint_certificate, h1, h2, h3', htc, hout, increment_certificate_count,
                add_co2e_to_total, if_neg, if_true, if_false, Option.isSome_none,
                Bool.false_eq_true, ite_false, ite_true] at hs
              rw [← hs]
              simp [htc]

theorem burn_certificate_ok_shape {s : RegState} {cid : CertId} {auth : Bool} {s' : RegState}
    (h : burn_certificate s cid auth = (none, s')) :
    ∃ r o, mapGet s.records cid = some r ∧ mapGet s.owners cid = some o ∧ auth = true ∧
      s' = subtract_co2e_from_total (decrement_certificate_count
        { s with owners := mapRemove s.owners cid,
                 records := mapRemove s.records cid,
                 farmer_index := remove_from_index s.farmer_index r.farmer_address cid,
                 verifier_index := remove_from_index s.verifier_index r.verifier_address cid })
        r.co2e_tons := by
  cases hg : mapGet s.records cid with
  | none => exact absurd (congrArg Prod.fst h) (by simp [burn_certificate, hg])
  | some r =>
    cases ho : mapGet s.owners cid with
    | none => exact absurd (congrArg Prod.fst h) (by simp [burn_certificate, hg, ho])
    | some o =>
      cases auth with
      | false => exact absurd (congrArg Prod.fst h) (by simp [burn_certificate, hg, ho])
      | true =>
        have hs := congrArg Prod.snd h
        simp only [burn_certificate, hg, ho, if_true] at hs
        exact ⟨r, o, rfl, rfl, rfl, hs.symm⟩

theorem transfer_certificate_ok_shape {s : RegState} {cid : CertId} {from_addr to_addr : Addr}
    {auth : Bool} {s' : RegState}
    (h : transfer_certificate s cid from_addr to_addr auth = (none, s')) :
    auth = true ∧ (mapGet s.records cid).isSome ∧ mapGet s.owners cid = some from_addr ∧
      s' = { s with owners := mapSet s.owners cid to_addr } := by
  cases auth with
  | false => exact absurd (congrArg Prod.fst h) (by simp [transfer_certificate])
  | true =>
    by_cases h1 : (mapGet s.records cid).isNone
    · exact absurd (congrArg Prod.fst h) (by simp [transfer_certificate, h1])
    · cases ho : mapGet s.owners cid with
      | none => exact absurd (congrArg Prod.fst h) (by simp [transfer_certificate, h1, ho])
      | some cur =>
        by_cases h2 : cur ≠ from_addr
        · exact absurd (congrArg Prod.fst h) (by simp [transfer_certificate, h1, ho, h2])
        · push_neg at h2
          subst h2
          have hs := congrArg Prod.snd h
          simp only [transfer_certificate, h1, ho, if_true, ite_false, ite_true,
            ne_eq, not_true_eq_false] at hs
          refine ⟨rfl, ?_, rfl, hs.symm⟩
          cases hgg : mapGet s.records cid with
          | none => rw [hgg] at h1 ; simp at h1
          | some w => simp

theorem reg_init_ok_shape {s : RegState} {admin : Addr} {s' : RegState}
    (h : CarbonCertifier.init s admin = (none, s')) :
    s' = { s with admin := some admin } := by
  by_cases ha : s.admin.isSome
  · exact absurd (congrArg Prod.fst h) (by simp [CarbonCertifier.init, ha])
  · have hs := congrArg Prod.snd h
    simpa [CarbonCertifier.init, ha] using hs.symm

theorem set_token_contract_id_ok_shape {s : RegState} {admin token_id : Addr} {auth : Bool}
    {s' : RegState}
    (h : set_token_contract_id s admin token_id auth = (none, s')) :
    s' = { s with token_contract_id := some token_id } := by
  cases auth with
  | false => exact absurd (congrArg Prod.fst h) (by simp [set_token_contract_id])
  | true =>
    cases ha : s.admin with
    | none => exact absurd (congrArg Prod.fst h) (by simp [set_token_contract_id, ha])
    | some st =>
      by_cases h2 : st ≠ admin
      · exact absurd (congrArg Prod.fst h) (by simp [set_token_contract_id, ha, h2])
      · have hs := congrArg Prod.snd h
        simpa [set_token_contract_id, ha, h2] using hs.symm

end OkShapes

theorem liftReg_ok {s : SysState} {out : Option ContractError × RegState} {s' : SysState}
    (h : liftReg s out = (none, s')) : out = (none, s'.reg) ∧ s'.tok = s.tok := by
  have h1 := congrArg Prod.fst h
  have h2 := congrArg Prod.snd h
  simp only [liftReg] at h1 h2
  have ho : out.1 = none := by
    cases ho : out.1 with
    | none => rfl
    | some e => rw [ho] at h1 ; simp at h1
  have hreg : s'.reg = out.2 := by rw [← h2]
  have htok : s'.tok = s.tok := by rw [← h2]
  exact ⟨Prod.ext_iff.mpr ⟨ho, hreg.symm⟩, htok⟩

theorem liftTok_ok {s : SysState} {out : Option TokenError × TokState} {s' : SysState}
    (h : liftTok s out = (none, s')) : out = (none, s'.tok) ∧ s'.reg = s.reg := by
  have h1 := congrArg Prod.fst h
  have h2 := congrArg Prod.snd h
  simp only [liftTok] at h1 h2
  have ho : out.1 = none := by
    cases ho : out.1 with
    | none => rfl
    | some e => rw [ho] at h1 ; simp at h1
  have htok : s'.tok = out.2 := by rw [← h2]
  have hreg : s'.reg = s.reg := by rw [← h2]
  exact ⟨Prod.ext_iff.mpr ⟨ho, htok.symm⟩, hreg⟩

/-- `RegInv` holds in the empty state. -/
theorem regInv_empty : RegInv regEmpty := by
  refine ⟨by simp [regEmpty], ?_, rfl, rfl, ?_, ?_⟩
  · intro id
    simp [regEmpty, mapGet]
  · intro a id
    simp [regEmpty, CarbonCertifier.idx_list, mapGet]
  · intro a id
    simp [regEmpty, CarbonCertifier.idx_list, mapGet]

/-- `RegInv` is preserved by every successful public call. -/
theorem regInv_step {s s' : SysState} {op : SysOp} (hInv : RegInv s.reg)
    (h : applySysOp s op = (none, s')) : RegInv s'.reg := by
  obtain ⟨hnd, hoif, hcnt, hco2, hfi, hvi⟩ := hInv
  cases op with
  | tokInit a =>
    rw [(liftTok_ok h).2]
    exact ⟨hnd, hoif, hcnt, hco2, hfi, hvi⟩
  | tokMint a amt au =>
    rw [(liftTok_ok h).2]
    exact ⟨hnd, hoif, hcnt, hco2, hfi, hvi⟩
  | tokTransfer a b amt au =>
    rw [(liftTok_ok h).2]
    exact ⟨hnd, hoif, hcnt, hco2, hfi, hvi⟩
  | tokApprove a b amt au =>
    rw [(liftTok_ok h).2]
    exact ⟨hnd, hoif, hcnt, hco2, hfi, hvi⟩
  | tokTransferFrom a b c amt au =>
    rw [(liftTok_ok h).2]
    exact ⟨hnd, hoif, hcnt, hco2, hfi, hvi⟩
  | regInit admin =>
    rw [reg_init_ok_shape (liftReg_ok h).1]
    exact ⟨hnd, hoif, hcnt, hco2, hfi, hvi⟩
  | setTokenContractId admin token_id auth =>
    rw [set_token_contract_id_ok_shape (liftReg_ok h).1]
    exact ⟨hnd, hoif, hcnt, hco2, hfi, hvi⟩
  | transferCertificate cid from_addr to_addr auth =>
    obtain ⟨hauth, hrec, hown, hshape⟩ := transfer_certificate_ok_shape (liftReg_ok h).1
    rw [hshape]
    refine ⟨hnd, ?_, hcnt, hco2, hfi, hvi⟩
    intro id
    show (mapGet (mapSet s.reg.owners cid to_addr) id).isSome = _
    rw [mapGet_set]
    by_cases hid : id = cid
    · subst hid
      simp only [if_pos rfl, Option.isSome_some]
      simp only [eq_self_iff_true, if_true, Option.isSome_some]
      exact hrec.symm
    · rw [if_neg hid]
      exact hoif id
  | mintCertificate cid r va ta =>
    have h1 := congrArg Prod.fst h
    have h2 := congrArg Prod.snd h
    simp only [applySysOp] at h1 h2
    have ho : (CarbonCertifier.mint_certificate s cid r va ta).1 = none := by
      cases hx : (CarbonCertifier.mint_certificate s cid r va ta).1 with
      | none => rfl
      | some e => rw [hx] at h1 ; simp at h1
    have hmm : CarbonCertifier.mint_certificate s cid r va ta = (none, s') :=
      Prod.ext_iff.mpr ⟨ho, h2⟩
    obtain ⟨hva, hh1, hh2, hnone, hshape⟩ := mint_certificate_ok_shape hmm
    rw [hshape]
    have hzero_f : ∀ b : Addr, (CarbonCertifier.idx_list s.reg.farmer_index b).count cid = 0 := by
      intro b
      have hx := hfi b cid
      rw [hnone] at hx
      simpa using hx
    have hzero_v : ∀ b : Addr,
        (CarbonCertifier.idx_list s.reg.verifier_index b).count cid = 0 := by
      intro b
      have hx := hvi b cid
      rw [hnone] at hx
      simpa using hx
    refine ⟨keysNodup_mapSet cid r hnd, ?_, ?_, ?_, ?_, ?_⟩
    · intro id
      show (mapGet (mapSet s.reg.owners cid r.farmer_address) id).isSome =
        (mapGet (mapSet s.reg.records cid r) id).isSome
      rw [mapGet_set, mapGet_set]
      by_cases hid : id = cid
      · simp [hid]
      · simp only [if_neg hid]
        exact hoif id
    · show s.reg.total_certificates + 1 = (mapSet s.reg.records cid r).length
      rw [mapSet_of_get_none hnone]
      simp [hcnt]
    · show s.reg.total_co2e + r.co2e_tons = ((mapSet s.reg.records cid r).map _).sum
      rw [mapSet_of_get_none hnone]
      simp [hco2]
    · intro a id
      show (CarbonCertifier.idx_list
          (CarbonCertifier.add_to_index s.reg.farmer_index r.farmer_address cid) a).count id = _
      rw [idx_list_add]
      by_cases hid : id = cid
      · subst hid
        rw [mapGet_set, if_pos rfl]
        simp only [Option.map_some']
        by_cases ha : a = r.farmer_address
        · rw [if_pos ha, if_pos (by rw [ha])]
          simp [List.count_append, hzero_f a]
        · rw [if_neg ha, if_neg (by intro hx ; exact ha (by injection hx with hx2 ; exact hx2.symm))]
          exact hzero_f a
      · rw [mapGet_set, if_neg hid]
        by_cases ha : a = r.farmer_address
        · rw [if_pos ha]
          rw [List.count_append]
          have : [cid].count id = 0 := by simp [List.count_singleton', hid]
          rw [this]
          simpa using hfi a id
        · rw [if_neg ha]
          exact hfi a id
    · intro a id
      show (CarbonCertifier.idx_list
          (CarbonCertifier.add_to_index s.reg.verifier_index r.verifier_address cid) a).count id = _
      rw [idx_list_add]
      by_cases hid : id = cid
      · subst hid
        rw [mapGet_set, if_pos rfl]
        simp only [Option.map_some']
        by_cases ha : a = r.verifier_address
        · rw [if_pos ha, if_pos (by rw [ha])]
          simp [List.count_append, hzero_v a]
        · rw [if_neg ha, if_neg (by intro hx ; exact ha (by injection hx with hx2 ; exact hx2.symm))]
          exact hzero_v a
      · rw [mapGet_set, if_neg hid]
        by_cases ha : a = r.verifier_address
        · rw [if_pos ha]
          rw [List.count_append]
          have : [cid].count id = 0 := by simp [List.count_singleton', hid]
          rw [this]
          simpa using hvi a id
        · rw [if_neg ha]
          exact hvi a id
  | burnCertificate cid auth =>
    obtain ⟨r, o, hrec, hown, hauth, hshape⟩ := burn_certificate_ok_shape (liftReg_ok h).1
    have hperm := perm_cons_mapRemove hnd hrec
    have hlen : s.reg.records.length = (mapRemove s.reg.records cid).length + 1 := by
      simpa using hperm.length_eq
    have hsum : (s.reg.records.map (fun p => p.2.co2e_tons)).sum =
        r.co2e_tons + ((mapRemove s.reg.records cid).map (fun p => p.2.co2e_tons)).sum := by
      simpa using (hperm.map (fun p => p.2.co2e_tons)).sum_eq
    have hrecords : s'.reg.records = mapRemove s.reg.records cid := by
      rw [hshape, (subtract_fields _ _).1, (decrement_fields _).1]
    have howners : s'.reg.owners = mapRemove s.reg.owners cid := by
      rw [hshape, (subtract_fields _ _).2.1, (decrement_fields _).2.1]
    have hfidx : s'.reg.farmer_index =
        CarbonCertifier.remove_from_index s.reg.farmer_index r.farmer_address cid := by
      rw [hshape, (subtract_fields _ _).2.2.1, (decrement_fields _).2.2.1]
    have hvidx : s'.reg.verifier_index =
        CarbonCertifier.remove_from_index s.reg.verifier_index r.verifier_address cid := by
      rw [hshape, (subtract_fields _ _).2.2.2.1, (decrement_fields _).2.2.2.1]
    have htc : s'.reg.total_certificates = s.reg.total_certificates - 1 := by
      rw [hshape, (subtract_fields _ _).2.2.2.2]
      unfold CarbonCertifier.decrement_certificate_count
      rw [if_pos]
      show s.reg.total_certificates > 0
      omega
    have hco : s'.reg.total_co2e = s.reg.total_co2e - r.co2e_tons := by
      rw [hshape]
      unfold CarbonCertifier.subtract_co2e_from_total
      rw [if_pos]
      · rw [(decrement_fields _).2.2.2.2]
      · rw [(decrement_fields _).2.2.2.2]
        show s.reg.total_co2e ≥ r.co2e_tons
        rw [hco2, hsum]
        omega
    refine ⟨?_, ?_, ?_, ?_, ?_, ?_⟩
    · rw [hrecords]
      exact keysNodup_mapRemove cid hnd
    · intro id
      rw [howners, hrecords, mapGet_remove, mapGet_remove]
      by_cases hid : id = cid
      · simp [hid]
      · simp only [if_neg hid]
        exact hoif id
    · rw [htc, hrecords, hcnt]
      omega
    · rw [hco, hrecords, hco2, hsum]
      omega
    · intro a id
      rw [hfidx, hrecords, mapGet_remove]
      by_cases ha : a = r.farmer_address
      · rw [ha, idx_list_remove_self]
        by_cases hid : id = cid
        · subst hid
          have hone : (CarbonCertifier.idx_list s.reg.farmer_index r.farmer_address).count id
              = 1 := by
            have hx := hfi r.farmer_address id
            rw [hrec] at hx
            simpa using hx
          rw [swap_pop_count_self hone]
          simp [if_pos rfl]
        · rw [swap_pop_count_other hid]
          rw [if_neg hid]
          rw [← ha]
          exact hfi a id
      · rw [idx_list_remove_other _ _ _ _ ha]
        by_cases hid : id = cid
        · subst hid
          have hx := hfi a id
          rw [hrec] at hx
          rw [hx]
          have hcond : ¬ (some r).map VerificationRecord.farmer_address = some a := by
            intro hc
            injection hc with hc2
            exact ha hc2.symm
          rw [if_neg hcond, if_pos rfl]
          simp
        · rw [if_neg hid]
          exact hfi a id
    · intro a id
      rw [hvidx, hrecords, mapGet_remove]
      by_cases ha : a = r.verifier_address
      · rw [ha, idx_list_remove_self]
        by_cases hid : id = cid
        · subst hid
          have hone : (CarbonCertifier.idx_list s.reg.verifier_index r.verifier_address).count id
              = 1 := by
            have hx := hvi r.verifier_address id
            rw [hrec] at hx
            simpa using hx
          rw [swap_pop_count_self hone]
          simp [if_pos rfl]
        · rw [swap_pop_count_other hid]
          rw [if_neg hid]
          rw [← ha]
          exact hvi a id
      · rw [idx_list_remove_other _ _ _ _ ha]
        by_cases hid : id = cid
        · subst hid
          have hx := hvi a id
          rw [hrec] at hx
          rw [hx]
          have hcond : ¬ (some r).map VerificationRecord.verifier_address = some a := by
            intro hc
            injection hc with hc2
            exact ha hc2.symm
          rw [if_neg hcond, if_pos rfl]
          simp
        · rw [if_neg hid]
          exact hvi a id

/-- Every reachable state satisfies the registry invariant. -/
theorem reachable_regInv {s : SysState} (h : Reachable s) : RegInv s.reg := by
  induction h with
  | init => exact regInv_empty
  | step _ happ ih => exact regInv_step ih happ

/-- C1: after any finite sequence of successful `mint_certificate` and
`burn_certificate` calls from the empty state, `TotalCertificates` equals the
number of stored records, `TotalCO2e` equals the sum of their `co2e_tons`,
and neither counter is below zero. -/
theorem C1_counters_match_records (s : SysState) (h : MintBurnReachable s) :
    s.reg.total_certificates = s.reg.records.length ∧
    s.reg.total_co2e = (s.reg.records.map (fun p => p.2.co2e_tons)).sum ∧
    0 ≤ s.reg.total_certificates ∧ 0 ≤ s.reg.total_co2e := by
  obtain ⟨_, _, hcnt, hco2, _, _⟩ := reachable_regInv h.toReachable
  exact ⟨hcnt, hco2, Nat.zero_le _, Nat.zero_le _⟩

/-- C1 witness: mint certificate 1 (100 tons), mint certificate 2 (40 tons),
then burn certificate 1; the counters match the surviving records. -/
theorem C1_counters_match_records_witness :
    ((applySysOp (applySysOp (applySysOp sysEmpty
        (.mintCertificate 1 demoRecord true true)).2
        (.mintCertificate 2 demoRecord2 true true)).2
        (.burnCertificate 1 true)).2).reg.total_certificates =
      ((applySysOp (applySysOp (applySysOp sysEmpty
        (.mintCertificate 1 demoRecord true true)).2
        (.mintCertificate 2 demoRecord2 true true)).2
        (.burnCertificate 1 true)).2).reg.records.length ∧
    ((applySysOp (applySysOp (applySysOp sysEmpty
        (.mintCertificate 1 demoRecord true true)).2
        (.mintCertificate 2 demoRecord2 true true)).2
        (.burnCertificate 1 true)).2).reg.total_co2e =
      (((applySysOp (applySysOp (applySysOp sysEmpty
        (.mintCertificate 1 demoRecord true true)).2
        (.mintCertificate 2 demoRecord2 true true)).2
        (.burnCertificate 1 true)).2).reg.records.map (fun p => p.2.co2e_tons)).sum := by
  have happ1 : applySysOp sysEmpty (.mintCertificate 1 demoRecord true true) =
      (none, (applySysOp sysEmpty (.mintCertificate 1 demoRecord true true)).2) := by decide
  have happ2 : applySysOp (applySysOp sysEmpty (.mintCertificate 1 demoRecord true true)).2
        (.mintCertificate 2 demoRecord2 true true) =
      (none, (applySysOp (applySysOp sysEmpty (.mintCertificate 1 demoRecord true true)).2
        (.mintCertificate 2 demoRecord2 true true)).2) := by decide
  have happ3 : applySysOp (applySysOp (applySysOp sysEmpty
        (.mintCertificate 1 demoRecord true true)).2
        (.mintCertificate 2 demoRecord2 true true)).2 (.burnCertificate 1 true) =
      (none, (applySysOp (applySysOp (applySysOp sysEmpty
        (.mintCertificate 1 demoRecord true true)).2
        (.mintCertificate 2 demoRecord2 true true)).2 (.burnCertificate 1 true)).2) := by decide
  have hr : MintBurnReachable ((applySysOp (applySysOp (applySysOp sysEmpty
      (.mintCertificate 1 demoRecord true true)).2
      (.mintCertificate 2 demoRecord2 true true)).2
      (.burnCertificate 1 true)).2) :=
    MintBurnReachable.step
      (MintBurnReachable.step
        (MintBurnReachable.step MintBurnReachable.init (by decide) happ1)
        (by decide) happ2)
      (by decide) happ3
  have h := C1_counters_match_records _ hr
  exact ⟨h.1, h.2.1⟩

/-- C2: in every reachable state, the owner mapping has an entry for an id
exactly when the record store has one. -/
theorem C2_owner_iff_record (s : SysState) (h : Reachable s) (id : CertId) :
    (mapGet s.reg.owners id).isSome = true ↔ (mapGet s.reg.records id).isSome = true := by
  obtain ⟨_, hoif, _, _, _, _⟩ := reachable_regInv h
  rw [hoif id]

/-- C2 witness: after minting certificate 1, both tables contain id 1, and
the equivalence holds for the absent id 2 as well. -/
theorem C2_owner_iff_record_witness :
    ((mapGet ((applySysOp sysEmpty (.mintCertificate 1 demoRecord true true)).2).reg.owners 1).isSome
        = true ↔
      (mapGet ((applySysOp sysEmpty
        (.mintCertificate 1 demoRecord true true)).2).reg.records 1).isSome = true) ∧
    ((mapGet ((applySysOp sysEmpty (.mintCertificate 1 demoRecord true true)).2).reg.owners 2).isSome
        = true ↔
      (mapGet ((applySysOp sysEmpty
        (.mintCertificate 1 demoRecord true true)).2).reg.records 2).isSome = true) := by
  have happ1 : applySysOp sysEmpty (.mintCertificate 1 demoRecord true true) =
      (none, (applySysOp sysEmpty (.mintCertificate 1 demoRecord true true)).2) := by decide
  have hr : Reachable ((applySysOp sysEmpty (.mintCertificate 1 demoRecord true true)).2) :=
    Reachable.step Reachable.init happ1
  exact ⟨C2_owner_iff_record _ hr 1, C2_owner_iff_record _ hr 2⟩

/-- C3: from any reachable state holding certificate `id`, a successful
owner-authorized burn makes both reads fail `NotFound` and removes `id` from
the record's farmer index list and verifier index list. -/
theorem C3_burn_removes_certificate (s : SysState) (hreach : Reachable s) (id : CertId)
    (r : VerificationRecord) (hrec : mapGet s.reg.records id = some r) (s' : RegState)
    (hburn : CarbonCertifier.burn_certificate s.reg id true = (none, s')) :
    CarbonCertifier.get_certificate_data s' id = .error .NotFound ∧
    CarbonCertifier.get_certificate_owner s' id = .error .NotFound ∧
    id ∉ CarbonCertifier.idx_list s'.farmer_index r.farmer_address ∧
    id ∉ CarbonCertifier.idx_list s'.verifier_index r.verifier_address := by
  obtain ⟨hnd, hoif, hcnt, hco2, hfi, hvi⟩ := reachable_regInv hreach
  obtain ⟨r', o, hrec', hown, _, hshape⟩ := burn_certificate_ok_shape hburn
  have hrr : r' = r := by
    rw [hrec] at hrec'
    injection hrec' with h2
    exact h2.symm
  subst hrr
  have hrecords : s'.records = mapRemove s.reg.records id := by
    rw [hshape, (subtract_fields _ _).1, (decrement_fields _).1]
  have hfidx : s'.farmer_index =
      CarbonCertifier.remove_from_index s.reg.farmer_index r'.farmer_address id := by
    rw [hshape, (subtract_fields _ _).2.2.1, (decrement_fields _).2.2.1]
  have hvidx : s'.verifier_index =
      CarbonCertifier.remove_from_index s.reg.verifier_index r'.verifier_address id := by
    rw [hshape, (subtract_fields _ _).2.2.2.1, (decrement_fields _).2.2.2.1]
  refine ⟨?_, ?_, ?_, ?_⟩
  · simp [CarbonCertifier.get_certificate_data, hrecords, mapGet_remove]
  · simp [CarbonCertifier.get_certificate_owner, hrecords, mapGet_remove]
  · have hone : (CarbonCertifier.idx_list s.reg.farmer_index r'.farmer_address).count id = 1 := by
      have hx := hfi r'.farmer_address id
      rw [hrec] at hx
      simpa using hx
    rw [hfidx, idx_list_remove_self]
    exact List.count_eq_zero.mp (swap_pop_count_self hone)
  · have hone : (CarbonCertifier.idx_list s.reg.verifier_index r'.verifier_address).count id
        = 1 := by
      have hx := hvi r'.verifier_address id
      rw [hrec] at hx
      simpa using hx
    rw [hvidx, idx_list_remove_self]
    exact List.count_eq_zero.mp (swap_pop_count_self hone)

/-- C3 witness: burn certificate 1 from the state where it was just minted;
all four absence conclusions hold concretely. -/
theorem C3_burn_removes_certificate_witness :
    CarbonCertifier.get_certificate_data
        (CarbonCertifier.burn_certificate
          ((applySysOp sysEmpty (.mintCertificate 1 demoRecord true true)).2).reg 1 true).2 1 =
      .error .NotFound ∧
    CarbonCertifier.get_certificate_owner
        (CarbonCertifier.burn_certificate
          ((applySysOp sysEmpty (.mintCertificate 1 demoRecord true true)).2).reg 1 true).2 1 =
      .error .NotFound ∧
    1 ∉ CarbonCertifier.idx_list
        ((CarbonCertifier.burn_certificate
          ((applySysOp sysEmpty
            (.mintCertificate 1 demoRecord true true)).2).reg 1 true).2).farmer_index
        demoRecord.farmer_address ∧
    1 ∉ CarbonCertifier.idx_list
        ((CarbonCertifier.burn_certificate
          ((applySysOp sysEmpty
            (.mintCertificate 1 demoRecord true true)).2).reg 1 true).2).verifier_index
        demoRecord.verifier_address := by
  have happ1 : applySysOp sysEmpty (.mintCertificate 1 demoRecord true true) =
      (none, (applySysOp sysEmpty (.mintCertificate 1 demoRecord true true)).2) := by decide
  have hr : Reachable ((applySysOp sysEmpty (.mintCertificate 1 demoRecord true true)).2) :=
    Reachable.step Reachable.init happ1
  exact C3_burn_removes_certificate _ hr 1 demoRecord (by decide) _ (by decide)

/-- C4 counterexample: with token contract 55 configured and the token
ledger uninitialized, the nested mint fails, and `mint_certificate` does
not return success with the record stored — the whole call aborts. -/
theorem C4_bridge_counterexample :
    ¬ ((CarbonCertifier.mint_certificate
          ⟨⟨some 9, some 55, [], [], [], [], 0, 0⟩, tokEmpty⟩ 1 demoRecord true true).1 = none ∧
        mapGet ((CarbonCertifier.mint_certificate
          ⟨⟨some 9, some 55, [], [], [], [], 0, 0⟩, tokEmpty⟩ 1 demoRecord true true).2).reg.records
          1 = some demoRecord) := by decide

/-- C4 amended: with a `TokenContractId` configured, when the nested
`TokenLedger.mint` call fails, the whole `mint_certificate` invocation
aborts with that failure and is rolled back: no record, owner entry,
counter update or index entry for the new certificate remains stored, and
the token ledger is also left as it was. -/
theorem C4_bridge_failure_aborts_and_rolls_back (s : SysState) (t : Addr)
    (htok : s.reg.token_contract_id = some t)
    (cid : CertId) (r : VerificationRecord) (tokAuth : Bool) (e : TokenError)
    (h1 : r.hectares_not_burned ≠ 0) (h2 : r.co2e_tons ≠ 0)
    (h3 : mapGet s.reg.records cid = none)
    (hfail : (CarbonToken.mint s.tok r.farmer_address (u128_as_i128 r.co2e_tons) tokAuth).1 =
      some e) :
    CarbonCertifier.mint_certificate s cid r true tokAuth = (some (.tok e), s) ∧
    mapGet ((CarbonCertifier.mint_certificate s cid r true tokAuth).2).reg.records cid = none ∧
    mapGet ((CarbonCertifier.mint_certificate s cid r true tokAuth).2).reg.owners cid =
      mapGet s.reg.owners cid ∧
    ((CarbonCertifier.mint_certificate s cid r true tokAuth).2).reg.total_certificates =
      s.reg.total_certificates ∧
    ((CarbonCertifier.mint_certificate s cid r true tokAuth).2).reg.total_co2e =
      s.reg.total_co2e ∧
    CarbonCertifier.idx_list ((CarbonCertifier.mint_certificate s cid r true tokAuth).2).reg.farmer_index
      r.farmer_address = CarbonCertifier.idx_list s.reg.farmer_index r.farmer_address ∧
    ((CarbonCertifier.mint_certificate s cid r true tokAuth).2).tok = s.tok := by
  have hres : CarbonCertifier.mint_certificate s cid r true tokAuth = (some (.tok e), s) := by
    simp [CarbonCertifier.mint_certificate, h1, h2, h3, htok, hfail,
      CarbonCertifier.increment_certificate_count, CarbonCertifier.add_co2e_to_total]
  refine ⟨hres, ?_, ?_, ?_, ?_, ?_, ?_⟩ <;> simp [hres, h3]

/-- C4 witness: the registry points at token contract 55, the token ledger
is uninitialized, so the nested mint fails `NotInitialized`; the whole call
aborts and nothing is stored. -/
theorem C4_bridge_failure_aborts_and_rolls_back_witness :
    CarbonCertifier.mint_certificate
        ⟨⟨some 9, some 55, [], [], [], [], 0, 0⟩, tokEmpty⟩ 1 demoRecord true true =
      (some (.tok .NotInitialized), ⟨⟨some 9, some 55, [], [], [], [], 0, 0⟩, tokEmpty⟩) ∧
    mapGet ((CarbonCertifier.mint_certificate
        ⟨⟨some 9, some 55, [], [], [], [], 0, 0⟩, tokEmpty⟩ 1 demoRecord true true).2).reg.records 1
      = none := by
  have h := C4_bridge_failure_aborts_and_rolls_back
    ⟨⟨some 9, some 55, [], [], [], [], 0, 0⟩, tokEmpty⟩ 55 (by decide) 1 demoRecord true
    .NotInitialized (by decide) (by decide) (by decide) (by decide)
  exact ⟨h.1, h.2.1⟩

section BubbleSortLemmas

open CarbonCertifier

theorem sortRel_refl (d : Bool) (a : CertId × Nat) : SortRel d a a := by
  cases d <;> simp [SortRel, should_swap]

theorem sortRel_of_swap {d : Bool} {a b : CertId × Nat}
    (h : should_swap d a b = true) : SortRel d b a := by
  cases d <;> simp [SortRel, should_swap] at h ⊢ <;> omega

theorem sortRel_trans {d : Bool} {a b c : CertId × Nat}
    (h1 : SortRel d a b) (h2 : SortRel d b c) : SortRel d a c := by
  cases d <;> simp [SortRel, should_swap] at h1 h2 ⊢ <;> omega

theorem sortRel_or_swap (d : Bool) (a b : CertId × Nat) :
    should_swap d a b = true ∨ SortRel d a b := by
  by_cases h : should_swap d a b = true
  · exact Or.inl h
  · exact Or.inr (by simpa [SortRel] using h)

theorem take_set_of_le (i : Nat) (v : CertId × Nat) :
    ∀ (l : List (CertId × Nat)) (j : Nat), j ≤ i → (l.set i v).take j = l.take j := by
  induction i with
  | zero =>
    intro l j h
    interval_cases j
    simp
  | succ i' ih =>
    intro l j h
    cases l with
    | nil => simp
    | cons a t =>
      cases j with
      | zero => simp
      | succ j' =>
        rw [List.set_cons_succ, List.take_succ_cons, List.take_succ_cons,
          ih t j' (by omega)]

theorem getD_set_self (l : List (CertId × Nat)) (i : Nat) (v : CertId × Nat)
    (h : i < l.length) : (l.set i v).getD i (0, 0) = v := by
  rw [List.getD_eq_getElem _ _ (by simpa using h)]
  exact List.getElem_set_self ..

theorem getD_set_ne (l : List (CertId × Nat)) (i j : Nat) (v : CertId × Nat)
    (h : i ≠ j) : (l.set i v).getD j (0, 0) = l.getD j (0, 0) := by
  by_cases hj : j < l.length
  · rw [List.getD_eq_getElem _ _ (by simpa using hj), List.getD_eq_getElem _ _ hj]
    exact List.getElem_set_ne (by simpa using h) ..
  · rw [List.getD_eq_default _ _ (by simpa using Nat.le_of_not_lt hj),
      List.getD_eq_default _ _ (by simpa using Nat.le_of_not_lt hj)]

theorem drop_eq_getD_cons {l : List (CertId × Nat)} {j : Nat} (h : j < l.length) :
    l.drop j = l.getD j (0, 0) :: l.drop (j + 1) := by
  rw [List.drop_eq_getElem_cons h, List.getD_eq_getElem _ _ h]

theorem getD_mem_take {l : List (CertId × Nat)} {m n : Nat} (h1 : m < n)
    (h2 : m < l.length) : l.getD m (0, 0) ∈ l.take n := by
  rw [List.getD_eq_getElem _ _ h2]
  have hlt : m < (l.take n).length := by
    rw [List.length_take]
    omega
  have : (l.take n)[m] = l[m] := List.getElem_take ..
  rw [← this]
  exact List.getElem_mem hlt

theorem mem_take_mono {l : List (CertId × Nat)} {m n : Nat} (h : m ≤ n) :
    ∀ x ∈ l.take m, x ∈ l.take n := by
  intro x hx
  have : l.take m = (l.take n).take m := by
    rw [List.take_take]
    rw [Nat.min_eq_left h]
  rw [this] at hx
  exact List.mem_of_mem_take hx

theorem getD_take_eq (l : List (CertId × Nat)) :
    ∀ (n j : Nat), j < n → (l.take n).getD j (0, 0) = l.getD j (0, 0) := by
  induction l with
  | nil => intro n j _ ; simp
  | cons a t ih =>
    intro n j hj
    obtain ⟨m, rfl⟩ : ∃ m, n = m + 1 := ⟨n - 1, by omega⟩
    cases j with
    | zero => simp
    | succ j' =>
      rw [List.take_succ_cons, List.getD_cons_succ, List.getD_cons_succ]
      exact ih m j' (by omega)

theorem getD_eq_of_take_eq {l₁ l₂ : List (CertId × Nat)} {j n : Nat}
    (h : l₁.take n = l₂.take n) (hj : j < n) :
    l₁.getD j (0, 0) = l₂.getD j (0, 0) := by
  rw [← getD_take_eq l₁ n j hj, ← getD_take_eq l₂ n j hj, h]

end BubbleSortLemmas

section BubbleSortCore

open CarbonCertifier

theorem drop_set_of_lt' (i : Nat) (v : CertId × Nat) :
    ∀ (l : List (CertId × Nat)) (k : Nat), i < k → (l.set i v).drop k = l.drop k := by
  induction i with
  | zero =>
    intro l k h
    cases l with
    | nil => simp
    | cons c t =>
      obtain ⟨k', rfl⟩ : ∃ k', k = k' + 1 := ⟨k - 1, by omega⟩
      simp
  | succ i' ih =>
    intro l k h
    cases l with
    | nil => simp
    | cons c t =>
      obtain ⟨k', rfl⟩ : ∃ k', k = k' + 1 := ⟨k - 1, by omega⟩
      rw [List.set_cons_succ, List.drop_succ_cons, List.drop_succ_cons, ih t k' (by omega)]

theorem bubble_inner_succ (d : Bool) (n j : Nat) (l : List (CertId × Nat)) :
    bubble_inner d (n + 1) j l = bubble_inner d n (j + 1) (bubble_step d l j) := rfl

theorem bubble_step_length (d : Bool) (l : List (CertId × Nat)) (j : Nat) :
    (bubble_step d l j).length = l.length := by
  unfold bubble_step
  split <;> simp

theorem bubble_step_take (d : Bool) (l : List (CertId × Nat)) (j : Nat) :
    (bubble_step d l j).take j = l.take j := by
  unfold bubble_step
  split
  · rw [take_set_of_le (j + 1) _ _ j (by omega), take_set_of_le j _ _ j (Nat.le_refl j)]
  · rfl

theorem bubble_step_drop (d : Bool) (l : List (CertId × Nat)) (j : Nat) {k : Nat}
    (h : j + 1 < k) : (bubble_step d l j).drop k = l.drop k := by
  unfold bubble_step
  split
  · rw [drop_set_of_lt' (j + 1) _ _ k (by omega), drop_set_of_lt' j _ _ k (by omega)]
  · rfl

theorem bubble_step_getD (d : Bool) (l : List (CertId × Nat)) (j : Nat)
    (hj : j + 1 < l.length) :
    ((bubble_step d l j).getD j (0, 0) = l.getD j (0, 0) ∧
      (bubble_step d l j).getD (j + 1) (0, 0) = l.getD (j + 1) (0, 0)) ∨
    ((bubble_step d l j).getD j (0, 0) = l.getD (j + 1) (0, 0) ∧
      (bubble_step d l j).getD (j + 1) (0, 0) = l.getD j (0, 0)) := by
  unfold bubble_step
  split
  · right
    constructor
    · rw [getD_set_ne _ _ _ _ (by omega), getD_set_self _ _ _ (by omega)]
    · rw [getD_set_self _ _ _ (by simpa using hj)]
  · left
    exact ⟨rfl, rfl⟩

theorem bubble_step_rel (d : Bool) (l : List (CertId × Nat)) (j : Nat)
    (hj : j + 1 < l.length) :
    SortRel d ((bubble_step d l j).getD j (0, 0)) ((bubble_step d l j).getD (j + 1) (0, 0)) := by
  rcases sortRel_or_swap d (l.getD j (0, 0)) (l.getD (j + 1) (0, 0)) with hs | hs
  · have hstep : bubble_step d l j =
        (l.set j (l.getD (j + 1) (0, 0))).set (j + 1) (l.getD j (0, 0)) := by
      unfold bubble_step
      rw [if_pos hs]
    rw [hstep]
    rw [getD_set_ne _ _ _ _ (by omega), getD_set_self _ _ _ (by omega),
      getD_set_self _ _ _ (by simpa using hj)]
    exact sortRel_of_swap hs
  · have hstep : bubble_step d l j = l := by
      unfold bubble_step
      rw [if_neg]
      simpa [SortRel] using hs
    rw [hstep]
    exact hs

theorem bubble_step_window2 (d : Bool) (l : List (CertId × Nat)) (j : Nat)
    (hj : j + 1 < l.length) :
    (window (bubble_step d l j) j 2).Perm (window l j 2) := by
  have hlen := bubble_step_length d l j
  have e1 : l.drop j = l.getD j (0, 0) :: l.getD (j + 1) (0, 0) :: l.drop (j + 2) := by
    rw [drop_eq_getD_cons (by omega)]
    congr 1
    rw [drop_eq_getD_cons (by omega)]
  have e2 : (bubble_step d l j).drop j =
      (bubble_step d l j).getD j (0, 0) :: (bubble_step d l j).getD (j + 1) (0, 0) ::
        l.drop (j + 2) := by
    rw [drop_eq_getD_cons (by omega)]
    congr 1
    rw [drop_eq_getD_cons (by omega)]
    congr 1
    exact bubble_step_drop d l j (by omega)
  unfold window
  rw [e1, e2]
  simp only [List.take_succ_cons, List.take_zero]
  rcases bubble_step_getD d l j hj with ⟨h1, h2⟩ | ⟨h1, h2⟩
  · rw [h1, h2]
  · rw [h1, h2]
    exact List.Perm.swap _ _ _

theorem bubble_step_window (d : Bool) (l : List (CertId × Nat)) (j n : Nat)
    (hj : j + 1 < l.length) :
    (window (bubble_step d l j) j (n + 2)).Perm (window l j (n + 2)) := by
  have hsplit : ∀ (m : List (CertId × Nat)), m.length = l.length →
      window m j (n + 2) = window m j 2 ++ (m.drop (j + 2)).take n := by
    intro m hm
    unfold window
    rw [show n + 2 = 2 + n from by omega, List.take_add]
    congr 1
    rw [List.drop_drop]
  rw [hsplit _ (bubble_step_length d l j), hsplit l rfl,
    bubble_step_drop d l j (by omega)]
  exact (bubble_step_window2 d l j hj).append (List.Perm.refl _)

end BubbleSortCore

section BubbleSortSpec

open CarbonCertifier

/-- One inner pass of the bubble sort starting at `j` for `n` iterations:
length, the first `j` slots and everything past `j + n` are preserved, the
window `[j, j + n]` is permuted, and its final slot is an upper bound (in
the pass's comparison order) of the whole window. -/
theorem bubble_inner_spec (d : Bool) :
    ∀ (n j : Nat) (l : List (CertId × Nat)), j + n < l.length →
      (bubble_inner d n j l).length = l.length ∧
      (bubble_inner d n j l).take j = l.take j ∧
      (bubble_inner d n j l).drop (j + n + 1) = l.drop (j + n + 1) ∧
      (window (bubble_inner d n j l) j (n + 1)).Perm (window l j (n + 1)) ∧
      (∀ x ∈ window (bubble_inner d n j l) j (n + 1),
        SortRel d x ((bubble_inner d n j l).getD (j + n) (0, 0))) := by
  intro n
  induction n with
  | zero =>
    intro j l hj
    show l.length = l.length ∧ l.take j = l.take j ∧
      l.drop (j + 0 + 1) = l.drop (j + 0 + 1) ∧
      (window l j (0 + 1)).Perm (window l j (0 + 1)) ∧
      (∀ x ∈ window l j (0 + 1), SortRel d x (l.getD (j + 0) (0, 0)))
    refine ⟨rfl, rfl, rfl, List.Perm.refl _, ?_⟩
    intro x hx
    unfold window at hx
    rw [drop_eq_getD_cons (by omega)] at hx
    simp only [List.take_succ_cons, List.take_zero] at hx
    have hx' : x = l.getD j (0, 0) := by simpa using hx
    subst hx'
    rw [Nat.add_zero]
    exact sortRel_refl d (l.getD j (0, 0))
  | succ n ih =>
    intro j l hj
    have hjl : j + 1 < l.length := by omega
    set l₁ := bubble_step d l j with hl1
    have hlen1 : l₁.length = l.length := bubble_step_length d l j
    have hb1 : (j + 1) + n < l₁.length := by omega
    obtain ⟨ihA, ihB, ihC, ihD, ihE⟩ := ih (j + 1) l₁ hb1
    rw [bubble_inner_succ, ← hl1]
    set l' := bubble_inner d n (j + 1) l₁ with hl'
    have hlenF : l'.length = l.length := by rw [ihA, hlen1]
    have hjF : j < l'.length := by omega
    have hj1L : j + 1 < l₁.length := by omega
    have hgdj : l'.getD j (0, 0) = l₁.getD j (0, 0) :=
      getD_eq_of_take_eq ihB (by omega)
    have hdecF : window l' j (n + 2) = l₁.getD j (0, 0) :: window l' (j + 1) (n + 1) := by
      unfold window
      rw [drop_eq_getD_cons hjF, List.take_succ_cons, hgdj]
    have hdec1 : window l₁ j (n + 2) = l₁.getD j (0, 0) :: window l₁ (j + 1) (n + 1) := by
      unfold window
      rw [drop_eq_getD_cons (by omega), List.take_succ_cons]
    refine ⟨hlenF, ?_, ?_, ?_, ?_⟩
    · have h1 : l'.take j = l₁.take j := by
        have h2 := congrArg (fun t => List.take j t) ihB
        simpa [List.take_take, Nat.min_eq_left (by omega : j ≤ j + 1)] using h2
      rw [h1, hl1, bubble_step_take]
    · have e : j + (n + 1) + 1 = (j + 1) + n + 1 := by omega
      rw [e, ihC, hl1, bubble_step_drop d l j (by omega)]
    · rw [hdecF]
      refine List.Perm.trans (ihD.cons _) ?_
      rw [← hdec1, hl1]
      exact bubble_step_window d l j n hjl
    · intro x hx
      have etarget : j + (n + 1) = (j + 1) + n := by omega
      rw [etarget]
      rw [hdecF] at hx
      rcases List.mem_cons.mp hx with rfl | hx2
      · have hrel := bubble_step_rel d l j hjl
        rw [← hl1] at hrel
        have hmem1 : l₁.getD (j + 1) (0, 0) ∈ window l₁ (j + 1) (n + 1) := by
          unfold window
          rw [drop_eq_getD_cons hj1L, List.take_succ_cons]
          exact List.mem_cons_self _ _
        have hmemF : l₁.getD (j + 1) (0, 0) ∈ window l' (j + 1) (n + 1) :=
          (ihD.mem_iff).mpr hmem1
        exact sortRel_trans hrel (ihE _ hmemF)
      · exact ihE x hx2

/-- The outer loop of the bubble sort: starting from pass `i` with the last
`i` slots already sorted and dominating the front, the result is a sorted
permutation of the input. -/
theorem bubble_outer_spec (d : Bool) (len : Nat) :
    ∀ (k i : Nat) (l : List (CertId × Nat)), l.length = len → i + k = len →
      List.Pairwise (SortRel d) (l.drop (len - i)) →
      (∀ x ∈ l.take (len - i), ∀ y ∈ l.drop (len - i), SortRel d x y) →
      (bubble_outer d len k i l).Perm l ∧
      List.Pairwise (SortRel d) (bubble_outer d len k i l) := by
  intro k
  induction k with
  | zero =>
    intro i l hlen hik hsorted hub
    have h0 : len - i = 0 := by omega
    rw [h0] at hsorted
    exact ⟨List.Perm.refl _, by simpa using hsorted⟩
  | succ k ih =>
    intro i l hlen hik hsorted hub
    have hipos : i < len := by omega
    have hn : 0 + (len - i - 1) < l.length := by omega
    obtain ⟨iA, iB, iC, iD, iE⟩ := bubble_inner_spec d (len - i - 1) 0 l hn
    set l₁ := bubble_inner d (len - i - 1) 0 l with hl1
    have hwin : ∀ (m : List (CertId × Nat)),
        window m 0 (len - i - 1 + 1) = m.take (len - i) := by
      intro m
      unfold window
      rw [List.drop_zero]
      congr 1
      omega
    have hC : l₁.drop (len - i) = l.drop (len - i) := by
      have e : 0 + (len - i - 1) + 1 = len - i := by omega
      rw [← e]
      exact iC
    have hD : (l₁.take (len - i)).Perm (l.take (len - i)) := by
      rw [← hwin l₁, ← hwin l]
      exact iD
    have iE' : ∀ x ∈ l₁.take (len - i), SortRel d x (l₁.getD (len - i - 1) (0, 0)) := by
      intro x hx
      have hx2 : x ∈ window l₁ 0 (len - i - 1 + 1) := by
        rw [hwin l₁]
        exact hx
      have := iE x hx2
      simpa using this
    have hlen1 : l₁.length = len := by rw [iA, hlen]
    have hdec : l₁.drop (len - (i + 1)) =
        l₁.getD (len - i - 1) (0, 0) :: l.drop (len - i) := by
      have e : len - (i + 1) = len - i - 1 := by omega
      rw [e, drop_eq_getD_cons (by omega)]
      congr 1
      have e2 : len - i - 1 + 1 = len - i := by omega
      rw [e2, hC]
    have htmem : l₁.getD (len - i - 1) (0, 0) ∈ l₁.take (len - i) :=
      getD_mem_take (by omega) (by omega)
    have htmem' : l₁.getD (len - i - 1) (0, 0) ∈ l.take (len - i) := hD.subset htmem
    have hsorted1 : List.Pairwise (SortRel d) (l₁.drop (len - (i + 1))) := by
      rw [hdec, List.pairwise_cons]
      exact ⟨fun y hy => hub _ htmem' y hy, hsorted⟩
    have hub1 : ∀ x ∈ l₁.take (len - (i + 1)), ∀ y ∈ l₁.drop (len - (i + 1)),
        SortRel d x y := by
      intro x hx y hy
      have hxi : x ∈ l₁.take (len - i) := by
        have e : len - (i + 1) = len - i - 1 := by omega
        rw [e] at hx
        exact mem_take_mono (by omega) x hx
      rw [hdec] at hy
      rcases List.mem_cons.mp hy with rfl | hy2
      · exact iE' x hxi
      · exact hub x (hD.subset hxi) y hy2
    have hstep : bubble_outer d len (k + 1) i l = bubble_outer d len k (i + 1) l₁ := rfl
    rw [hstep]
    obtain ⟨perm1, sorted1⟩ := ih (i + 1) l₁ hlen1 (by omega) hsorted1 hub1
    refine ⟨perm1.trans ?_, sorted1⟩
    have hperm2 : (l₁.take (len - i) ++ l₁.drop (len - i)).Perm l := by
      rw [hC]
      have h2 := hD.append (List.Perm.refl (l.drop (len - i)))
      rw [List.take_append_drop] at h2
      exact h2
    have hsplit1 : l₁.take (len - i) ++ l₁.drop (len - i) = l₁ := List.take_append_drop _ _
    rw [← hsplit1]
    exact hperm2

/-- The bubble sort permutes its input. -/
theorem bubble_sort_perm (d : Bool) (l : List (CertId × Nat)) :
    (bubble_sort d l).Perm l := by
  refine (bubble_outer_spec d l.length l.length 0 l rfl (by omega) ?_ ?_).1
  · simp [List.drop_length]
  · intro x hx y hy
    rw [Nat.sub_zero, List.drop_length] at hy
    simp at hy

/-- The bubble sort sorts by the pass's comparison order. -/
theorem bubble_sort_sorted (d : Bool) (l : List (CertId × Nat)) :
    List.Pairwise (SortRel d) (bubble_sort d l) := by
  refine (bubble_outer_spec d l.length l.length 0 l rfl (by omega) ?_ ?_).2
  · simp [List.drop_length]
  · intro x hx y hy
    rw [Nat.sub_zero, List.drop_length] at hy
    simp at hy

end BubbleSortSpec

/-- C8 counterexample: two certificates with equal `co2e_tons` (5 each).
The sort is stable in both directions, so the descending output `[1, 2]` is
not the reverse of the ascending output `[1, 2]`. -/
theorem C8_sort_counterexample :
    ¬ (CarbonCertifier.sort_certificates [(1, ⟨5, 1, 7, 8, 0⟩), (2, ⟨5, 2, 7, 8, 1⟩)] [1, 2]
        .Co2eTons true =
      (CarbonCertifier.sort_certificates [(1, ⟨5, 1, 7, 8, 0⟩), (2, ⟨5, 2, 7, 8, 1⟩)] [1, 2]
        .Co2eTons false).reverse) := by decide

/-- C8 amended: when the resolved sort keys of the listed ids are pairwise
distinct, sorting descending produces exactly the reverse of sorting
ascending. -/
theorem C8_sort_desc_eq_reverse_asc (records : List (CertId × VerificationRecord))
    (cert_ids : List CertId) (sort_by : SortBy)
    (hnd : ((CarbonCertifier.sort_pairs records cert_ids sort_by).map Prod.snd).Nodup) :
    CarbonCertifier.sort_certificates records cert_ids sort_by true =
      (CarbonCertifier.sort_certificates records cert_ids sort_by false).reverse := by
  by_cases hlen : cert_ids.length ≤ 1
  · unfold CarbonCertifier.sort_certificates
    rw [if_pos hlen, if_pos hlen]
    cases cert_ids with
    | nil => rfl
    | cons a t =>
      cases t with
      | nil => rfl
      | cons b t2 => simp at hlen
  · unfold CarbonCertifier.sort_certificates
    rw [if_neg hlen, if_neg hlen]
    set P := CarbonCertifier.sort_pairs records cert_ids sort_by with hP
    have hkeyT : ((CarbonCertifier.bubble_sort true P).map Prod.snd).Nodup :=
      (((bubble_sort_perm true P).map Prod.snd).nodup_iff).mpr hnd
    have hkeyF : ((CarbonCertifier.bubble_sort false P).map Prod.snd).Nodup :=
      (((bubble_sort_perm false P).map Prod.snd).nodup_iff).mpr hnd
    have hsortedT : List.Pairwise (fun a b : CertId × Nat => b.2 < a.2)
        (CarbonCertifier.bubble_sort true P) := by
      have h1 := bubble_sort_sorted true P
      have h2 := List.pairwise_map.mp hkeyT
      refine (h1.and h2).imp ?_
      intro a b hab
      have hle : b.2 ≤ a.2 := by
        have h3 := hab.1
        simpa [SortRel, CarbonCertifier.should_swap] using h3
      have hne := hab.2
      omega
    have hsortedF : List.Pairwise (fun a b : CertId × Nat => a.2 < b.2)
        (CarbonCertifier.bubble_sort false P) := by
      have h1 := bubble_sort_sorted false P
      have h2 := List.pairwise_map.mp hkeyF
      refine (h1.and h2).imp ?_
      intro a b hab
      have hle : a.2 ≤ b.2 := by
        have h3 := hab.1
        simpa [SortRel, CarbonCertifier.should_swap] using h3
      have hne := hab.2
      omega
    have hsortedFR : List.Pairwise (fun a b : CertId × Nat => b.2 < a.2)
        ((CarbonCertifier.bubble_sort false P).reverse) := by
      rw [List.pairwise_reverse]
      exact hsortedF
    have hperm : (CarbonCertifier.bubble_sort true P).Perm
        ((CarbonCertifier.bubble_sort false P).reverse) :=
      ((bubble_sort_perm true P).trans (bubble_sort_perm false P).symm).trans
        (List.reverse_perm _).symm
    haveI : IsAntisymm (CertId × Nat) (fun a b => b.2 < a.2) :=
      ⟨fun a b h1 h2 => absurd h1 (by omega)⟩
    have heq : CarbonCertifier.bubble_sort true P =
        (CarbonCertifier.bubble_sort false P).reverse :=
      List.eq_of_perm_of_sorted hperm hsortedT hsortedFR
    rw [heq, List.map_reverse]

/-- C8 witness: two certificates with distinct tonnages 5 and 9; the
descending order is the reverse of the ascending order. -/
theorem C8_sort_desc_eq_reverse_asc_witness :
    CarbonCertifier.sort_certificates [(1, ⟨5, 1, 7, 8, 0⟩), (2, ⟨9, 2, 7, 8, 1⟩)] [1, 2]
        .Co2eTons true =
      (CarbonCertifier.sort_certificates [(1, ⟨5, 1, 7, 8, 0⟩), (2, ⟨9, 2, 7, 8, 1⟩)] [1, 2]
        .Co2eTons false).reverse :=
  C8_sort_desc_eq_reverse_asc [(1, ⟨5, 1, 7, 8, 0⟩), (2, ⟨9, 2, 7, 8, 1⟩)] [1, 2]
    .Co2eTons (by decide)
